import Mathlib

/-!
# Verification development for `top_level.go`

A shallow embedding of the top-level license pipeline of the repository
(`listAllImports`, `parseImportBlock`, `getTopLevelPackagesInfo`,
`listTopLevelLicenses`) together with theorems about it.

Conventions of the embedding.

* Go strings are `String`; the text functions work on the character list of a
  string (`String.toList`).
* The file system, the `go list` tool chain and the license helpers are
  explicit inputs of the functions that use them.
* A Go function returning `(value, error)` returns `Except`.
* Loops over a `bufio.Reader` recurse on a fuel argument; the entry points
  pass one more than the number of unread characters, which is always enough
  because every successful `ReadString` consumes at least one character
  (`readLoop_fuel`, `parseImportBlock_fuel`).
-/

set_option autoImplicit false

deriving instance DecidableEq for Except

namespace Licenses

/-! ## Library functions used by the source -/

/-- Go `strings.Contains(s, substr)` on character lists. -/
def stringsContains : List Char → List Char → Bool
  | [], substr => substr.isEmpty
  | c :: cs, substr => substr.isPrefixOf (c :: cs) || stringsContains cs substr

/-- Go `strings.HasSuffix(s, suffix)`. -/
def stringsHasSuffix (s suffix : List Char) : Bool :=
  suffix.reverse.isPrefixOf s.reverse

/-- Go `strings.Trim(s, cutset)`: strips the leading and trailing characters
that belong to `cutset`. -/
def stringsTrim (s cutset : List Char) : List Char :=
  ((s.dropWhile (fun c => cutset.contains c)).reverse.dropWhile
    (fun c => cutset.contains c)).reverse

/-- Go `regexp.MustCompile(...).FindString(s)` for the pattern of the source,
a double quote, one or more characters other than a double quote, and a double
quote: the leftmost match, or the empty list when there is none. -/
def findString : List Char → List Char
  | [] => []
  | c :: cs =>
    if c = '\x22' then
      match cs.span (fun d => d != '\x22') with
      | (run, _ :: _) => if run.isEmpty then findString cs else '\x22' :: (run ++ ['\x22'])
      | (_, []) => findString cs
    else findString cs

/-- Go `strings.Split(s, "/")`. -/
def splitSlash : List Char → List (List Char)
  | [] => [[]]
  | c :: cs =>
    match splitSlash cs with
    | [] => [[c]]
    | p :: ps => if c = '/' then [] :: p :: ps else (c :: p) :: ps

/-- One step of `filepath.Clean`: `stack` holds the components kept so far,
the most recent first. -/
def cleanStep (rooted : Bool) (stack : List (List Char)) (comp : List Char) :
    List (List Char) :=
  if comp = [] ∨ comp = ['.'] then stack
  else if comp = ['.', '.'] then
    match stack with
    | [] => if rooted then [] else [comp]
    | top :: rest => if top = ['.', '.'] then comp :: stack else rest
  else comp :: stack

/-- Go `filepath.Clean` for slash-separated paths. -/
def filepathClean (p : List Char) : List Char :=
  let rooted := p.head? = some '/'
  let comps := ((splitSlash p).foldl (cleanStep rooted) []).reverse
  let body := (if rooted then ['/'] else []) ++ List.intercalate ['/'] comps
  if body.isEmpty then ['.'] else body

/-- Go `filepath.Join(elem...)`: empty leading elements are ignored, the rest
is joined with slashes and cleaned; the empty string when every element is
empty. -/
def filepathJoin (elem : List String) : String :=
  match elem.dropWhile (fun e => e.toList.isEmpty) with
  | [] => ""
  | es => String.mk (filepathClean (List.intercalate ['/'] (es.map String.toList)))

/-! ## `bufio.Reader` -/

/-- Error of a read: end of file or anything else. -/
inductive ReadErr where
  | eof
  | other
  deriving DecidableEq, Repr

/-- A `bufio.Reader` over an open file: the unread characters, and whether the
underlying read fails (with an error other than end of file) once they are
exhausted. -/
structure Reader where
  buf : List Char
  failing : Bool
  deriving DecidableEq, Repr

/-- Splits off the first line, its newline included; `none` when there is no
newline. -/
def splitLine : List Char → Option (List Char × List Char)
  | [] => none
  | c :: cs =>
    if c = '\n' then some (['\n'], cs)
    else
      match splitLine cs with
      | some (l, rest) => some (c :: l, rest)
      | none => none

/-- Go `reader.ReadString('\n')`: the text up to and including the next
newline; when there is none, the remaining text together with the error. -/
def Reader.ReadString (r : Reader) : List Char × Option ReadErr × Reader :=
  match splitLine r.buf with
  | some (l, rest) => (l, none, { r with buf := rest })
  | none => (r.buf, some (if r.failing then ReadErr.other else ReadErr.eof),
      { r with buf := [] })

/-! ## `parseImportBlock` -/

/-- The loop of `parseImportBlock`: `imports` is the slice built so far. -/
def parseImportBlockLoop : Nat → Reader → List String →
    Except String (List String) × Reader
  | 0, r, imports => (.ok imports, r)
  | fuel + 1, r, imports =>
    match r.ReadString with
    | (_, some ReadErr.eof, r1) => (.ok imports, r1)
    | (_, some ReadErr.other, r1) => (.error "read line error", r1)
    | (line, none, r1) =>
      let findResult := findString line
      let imports1 :=
        if findResult ≠ [] then imports ++ [String.mk (stringsTrim findResult ['\x22'])]
        else imports
      if stringsContains line [')'] then (.ok imports1, r1)
      else parseImportBlockLoop fuel r1 imports1

/-- Source `parseImportBlock(reader)`; the reader after the call is returned
as well, since the caller goes on reading from it. -/
def parseImportBlock (reader : Reader) : Except String (List String) × Reader :=
  parseImportBlockLoop (reader.buf.length + 1) reader []

/-! ## `listAllImports` -/

/-- The key set of the Go map `imports`, as the list of its keys in order of
first insertion; Go does not define the order in which a map is iterated,
see `keysOrder` in `listAllImports`. -/
abbrev ImportSet := List String

/-- Source `if _, ok := imports[str]; !ok { imports[str] = struct{}{} }`. -/
def mapInsert (imports : ImportSet) (str : String) : ImportSet :=
  if str ∈ imports then imports else imports ++ [str]

/-- Errors returned by `listAllImports`. -/
inductive ImportsError where
  /-- Message `open file %s error: %s`. -/
  | openFile (fPath : String)
  /-- Message `read line error in file %s`. -/
  | readLine (fPath : String)
  /-- Message `%s in file %s`, from an error of `parseImportBlock`. -/
  | inBlock (msg : String) (fPath : String)
  deriving DecidableEq, Repr

/-- The text `import` that the read loop looks for. -/
def importToken : List Char := "import".toList

/-- The text `func` that stops the read loop. -/
def funcToken : List Char := "func".toList

/-- Source lines 202-209: the single-import branch, which puts the first
quoted string of the line, stripped of its quotes, into the map. -/
def singleImport (line : List Char) (imports : ImportSet) : ImportSet :=
  let findResult := findString line
  if findResult ≠ [] then mapInsert imports (String.mk (stringsTrim findResult ['\x22']))
  else imports

/-- The part of the body of the read loop of `listAllImports` guarded by
`strings.Contains(line, "import")`: the new key set and the reader to go on
with. -/
def scanImportLine (fPath : String) (line : List Char) (r : Reader)
    (imports : ImportSet) : Except ImportsError (ImportSet × Reader) :=
  if stringsContains line importToken then
    if stringsContains line ['('] then
      match parseImportBlock r with
      | (.error msg, _) => .error (ImportsError.inBlock msg fPath)
      | (.ok strImports, r1) => .ok (strImports.foldl mapInsert imports, r1)
    else .ok (singleImport line imports, r)
  else .ok (imports, r)

/-- The read loop of `listAllImports` over one opened file. -/
def readLoop (fPath : String) : Nat → Reader → ImportSet →
    Except ImportsError ImportSet
  | 0, _, imports => .ok imports
  | fuel + 1, r, imports =>
    match r.ReadString with
    | (_, some ReadErr.eof, _) => .ok imports
    | (_, some ReadErr.other, _) => .error (ImportsError.readLine fPath)
    | (line, none, r1) =>
      match scanImportLine fPath line r1 imports with
      | .error e => .error e
      | .ok (imports1, r2) =>
        if stringsContains line funcToken then .ok imports1
        else readLoop fPath fuel r2 imports1

/-! ## The file system seen by `filepath.Walk` and `os.Open` -/

/-- An entry of the file system. A `file` is anything that is not a directory;
`openable` says whether `os.Open` succeeds on it and `readFails` whether
reading it ends with an error other than end of file. A `dir` lists its
entries in the order `filepath.Walk` visits them; `listable` says whether its
entries can be read. A `broken` entry is one on which `os.Lstat` fails. -/
inductive FsNode where
  | file (name : String) (openable : Bool) (bytes : String) (readFails : Bool)
  | dir (name : String) (listable : Bool) (entries : List FsNode)
  | broken (name : String)
  deriving Repr

/-- Go `info.Name()`. -/
def FsNode.Name : FsNode → String
  | .file n _ _ _ => n
  | .dir n _ _ => n
  | .broken n => n

/-- Go `info.IsDir()`. -/
def FsNode.IsDir : FsNode → Bool
  | .dir _ _ _ => true
  | _ => false

/-- Whether `os.Lstat` fails on the entry. -/
def FsNode.lstatFails : FsNode → Bool
  | .broken _ => true
  | _ => false

/-- Go `os.Open` followed by `bufio.NewReader`: `none` when opening fails.
A directory opens, and every read from it fails. -/
def osOpen : FsNode → Option Reader
  | .file _ true bytes readFails => some ⟨bytes.toList, readFails⟩
  | .file _ false _ _ => none
  | .dir _ _ _ => some ⟨[], true⟩
  | .broken _ => none

/-- What a `filepath.WalkFunc` returns: `nil`, `filepath.SkipDir`, or another
error. -/
inductive WalkRet where
  | nil
  | skipDir
  | err
  deriving DecidableEq, Repr

/-- The closure passed to `filepath.Walk` in `listAllImports`; `err` says
whether Walk reports an error for the entry, and `goFilePaths` is the captured
slice, each path kept together with the entry it names. -/
def walkFn (subDirToSkip : String) (path : String) (info : FsNode) (err : Bool)
    (goFilePaths : List (String × FsNode)) : WalkRet × List (String × FsNode) :=
  if err then (WalkRet.err, goFilePaths)
  else if info.IsDir && info.Name = subDirToSkip then (WalkRet.skipDir, goFilePaths)
  else if stringsHasSuffix info.Name.toList ".go".toList then
    (WalkRet.nil, goFilePaths ++ [(path, info)])
  else (WalkRet.nil, goFilePaths)

mutual
/-- Go `filepath.walk(path, info, walkFn)` for the closure `walkFn`; its
callers call it on entries on which `os.Lstat` succeeded. For a directory,
`walkFn` is called once, with the error of reading the entries if there is
one, and the entries are walked when both that read and `walkFn` succeed. -/
def walk (subDirToSkip : String) (path : String) :
    FsNode → List (String × FsNode) → WalkRet × List (String × FsNode)
  | .broken n, acc => walkFn subDirToSkip path (.broken n) true acc
  | .file n o b f, acc => walkFn subDirToSkip path (.file n o b f) false acc
  | .dir n listable entries, acc =>
    match walkFn subDirToSkip path (.dir n listable entries) (!listable) acc with
    | (WalkRet.nil, acc1) =>
      if listable then walkEntries subDirToSkip path entries acc1
      else (WalkRet.nil, acc1)
    | (r, acc1) => (r, acc1)
/-- The loop of `filepath.walk` over the entries of the directory `path`: an
entry on which `os.Lstat` fails is reported to `walkFn`, the others are
walked; `SkipDir` returned for a directory skips that directory only. -/
def walkEntries (subDirToSkip : String) (path : String) :
    List FsNode → List (String × FsNode) → WalkRet × List (String × FsNode)
  | [], acc => (WalkRet.nil, acc)
  | e :: es, acc =>
    if e.lstatFails then
      match walkFn subDirToSkip (filepathJoin [path, e.Name]) e true acc with
      | (WalkRet.err, acc1) => (WalkRet.err, acc1)
      | (_, acc1) => walkEntries subDirToSkip path es acc1
    else
      match walk subDirToSkip (filepathJoin [path, e.Name]) e acc with
      | (WalkRet.nil, acc1) => walkEntries subDirToSkip path es acc1
      | (WalkRet.skipDir, acc1) =>
        if e.IsDir then walkEntries subDirToSkip path es acc1 else (WalkRet.skipDir, acc1)
      | (WalkRet.err, acc1) => (WalkRet.err, acc1)
end

/-- Go `filepath.Walk(dir, walkFn)`: whether it returns an error, and the
slice `goFilePaths` after the walk. `SkipDir` at the root is not an error. -/
def filepathWalk (subDirToSkip : String) (dir : String) (root : FsNode) :
    Bool × List (String × FsNode) :=
  match (if root.lstatFails then walkFn subDirToSkip dir root true []
      else walk subDirToSkip dir root []) with
  | (WalkRet.err, acc) => (true, acc)
  | (_, acc) => (false, acc)

/-- The loop of `listAllImports` over `goFilePaths`. -/
def scanFiles : List (String × FsNode) → ImportSet → Except ImportsError ImportSet
  | [], imports => .ok imports
  | (fPath, node) :: rest, imports =>
    if fPath = "" then scanFiles rest imports
    else
      match osOpen node with
      | none => .error (ImportsError.openFile fPath)
      | some reader =>
        match readLoop fPath (reader.buf.length + 1) reader imports with
        | .error e => .error e
        | .ok imports1 => scanFiles rest imports1

/-- Source `listAllImports(fPath)` on the file system `root` found at `fPath`.
An error of the walk is only printed. `keysOrder` is the order in which
`for key := range imports` yields the keys of the map, which Go leaves
unspecified. -/
def listAllImports (keysOrder : ImportSet → List String) (fPath : String)
    (root : FsNode) : Except ImportsError (List String) :=
  let subDirToSkip := filepathJoin [fPath, "vendor"]
  let goFilePaths := (filepathWalk subDirToSkip fPath root).2
  match scanFiles goFilePaths [] with
  | .error e => .error e
  | .ok imports => .ok (keysOrder imports)

/-! ## `getTopLevelPackagesInfo` -/

/-- Modelled from the spec: the declaration of `PkgError` is not in the source
file; the source reads its field `Err`. -/
structure PkgError where
  Err : String
  deriving DecidableEq, Repr

/-- Modelled from the spec: the declaration of `PkgInfo` is not in the source
file; the spec lists a canonical import path, a name, a root directory and an
optional resolution error, which are the fields the source reads. -/
structure PkgInfo where
  Name : String
  Root : String
  ImportPath : String
  Error : Option PkgError
  deriving DecidableEq, Repr

/-- What `cmd.CombinedOutput()` gives for one run of `go`: whether the run
failed, the combined output, and the records a `json.Decoder` decodes from
that output one after the other (decoding fails after the last of them). -/
structure CmdOutput where
  failed : Bool
  out : String
  records : List PkgInfo
  deriving DecidableEq, Repr

/-- Errors returned by `getTopLevelPackagesInfo`. -/
inductive PkgsError where
  /-- Message `go %s failed with:\n%s`. -/
  | goFailed (args : List String) (out : String)
  /-- Message `could not retrieve package information for %s`. -/
  | notRetrieved (pkg : String)
  /-- Message `package information mismatch: asked for %s, got %s`. -/
  | mismatch (pkg : String) (got : String)
  deriving DecidableEq, Repr

/-- The vendor root that the source joins with the import path on a retry. -/
def vendorRoot : String := "src.sevone.com/eng/platform/apical/vendor"

/-- Source condition `info.Error != nil && info.Name == ""`. -/
def PkgInfo.failed (info : PkgInfo) : Bool :=
  info.Error.isSome && info.Name == ""

/-- The arguments of the primary query: source `args := []string{"list", "-e",
"-json"}` followed by `args = append(args, pkgs...)`. -/
def listArgs (pkgs : List String) : List String :=
  ["list", "-e", "-json"] ++ pkgs

/-- The arguments of the vendor retry for an import path. -/
def vendorArgs (importPath : String) : List String :=
  ["list", "-e", "-json", filepathJoin [vendorRoot, importPath]]

/-- The body of `if info.Error != nil && info.Name == ""` in
`getTopLevelPackagesInfo`: the vendor retry for the record `info` decoded for
`pkg`. -/
def tryVendor (goList : String → List String → CmdOutput) (gopath : String)
    (pkg : String) (info : PkgInfo) : Except PkgsError PkgInfo :=
  let args := vendorArgs info.ImportPath
  let tryVendor := goList gopath args
  if tryVendor.failed then .error (PkgsError.goFailed args tryVendor.out)
  else
    match tryVendor.records with
    | [] => .error (PkgsError.notRetrieved pkg)
    | tryInfo :: _ =>
      if !tryInfo.failed then .ok tryInfo
      else .ok { info with Name := info.ImportPath }

/-- The loop `for _, pkg := range pkgs` of `getTopLevelPackagesInfo`:
`decoder` holds the records not yet decoded, `infos` the slice built so far. -/
def resolveLoop (goList : String → List String → CmdOutput) (gopath : String) :
    List String → List PkgInfo → List PkgInfo → Except PkgsError (List PkgInfo)
  | [], _, infos => .ok infos
  | pkg :: pkgs, decoder, infos =>
    match decoder with
    | [] => .error (PkgsError.notRetrieved pkg)
    | info :: decoder1 =>
      if pkg ≠ info.ImportPath then .error (PkgsError.mismatch pkg info.ImportPath)
      else if info.failed then
        match tryVendor goList gopath pkg info with
        | .error e => .error e
        | .ok info1 => resolveLoop goList gopath pkgs decoder1 (infos ++ [info1])
      else resolveLoop goList gopath pkgs decoder1 (infos ++ [info])

/-- Source `getTopLevelPackagesInfo(gopath, pkgs)`; `goList gopath args` is
what running `go args...` in the environment `fixEnv(gopath)` gives. -/
def getTopLevelPackagesInfo (goList : String → List String → CmdOutput)
    (gopath : String) (pkgs : List String) : Except PkgsError (List PkgInfo) :=
  let args := listArgs pkgs
  let out := goList gopath args
  if out.failed then .error (PkgsError.goFailed args out.out)
  else resolveLoop goList gopath pkgs out.records []

/-! ## `listTopLevelLicenses` -/

/-- Modelled from the spec: the declaration of `MatchResult` is not in the
source file; the spec lists a score, a matched template identifier, extra
words and missing words. The score is a number that the source only copies. -/
structure MatchResult where
  Template : String
  Score : Rat
  ExtraWords : List String
  MissingWords : List String
  deriving DecidableEq, Repr

/-- Modelled from the spec: the declaration of `License` is not in the source
file; the fields are the ones the source assigns, absent ones holding the zero
value of their type. -/
structure License where
  Package : String
  Score : Rat := 0
  Template : String := ""
  Path : String := ""
  Err : String := ""
  ExtraWords : List String := []
  MissingWords : List String := []
  deriving DecidableEq, Repr

/-- A call that the loop of `listTopLevelLicenses` makes on a license file:
`ioutil.ReadFile(fpath)`, or `matchTemplates(data, templates)` on the bytes
read from `fpath`. -/
inductive Call where
  | readFile (fpath : String)
  | matchTemplates (fpath : String) (data : String)
  deriving DecidableEq, Repr

/-- How many times `calls` reads the file `fpath`. -/
def readsOf (calls : List Call) (fpath : String) : Nat :=
  calls.countP (fun c => c == Call.readFile fpath)

/-- How many times `calls` passes bytes of the file `fpath` to
`matchTemplates`. -/
def matchesOf (calls : List Call) (fpath : String) : Nat :=
  calls.countP (fun c =>
    match c with
    | Call.matchTemplates p _ => p == fpath
    | Call.readFile _ => false)

/-- Errors returned by `listTopLevelLicenses`. -/
inductive TopError where
  | loadTemplates (msg : String)
  /-- Message `could not list %s dependencies: %s`. -/
  | listDeps (pkgs : List String) (e : ImportsError)
  /-- Message `could not list standard packages: %s`. -/
  | listStd (msg : String)
  | pkgsInfo (e : PkgsError)
  | findLicense (msg : String)
  | readFile (msg : String)
  deriving DecidableEq, Repr

/-- The collaborators of `listTopLevelLicenses` whose code is not in the
source file, for a template catalog of type `τ`. -/
structure Helpers (τ : Type) where
  loadTemplates : Except String τ
  listStandardPackages : String → Except String (List String)
  findLicense : PkgInfo → Except String String
  readFile : String → Except String String
  matchTemplates : String → τ → MatchResult

/-- Go map lookup `m, ok := matched[fpath]`; the map is the list of its
assignments, the latest first. -/
def cacheLookup (matched : List (String × MatchResult)) (fpath : String) :
    Option MatchResult :=
  (matched.find? (fun kv => kv.1 == fpath)).map Prod.snd

/-- Go map assignment `matched[fpath] = m`. -/
def cacheStore (matched : List (String × MatchResult)) (fpath : String)
    (m : MatchResult) : List (String × MatchResult) :=
  (fpath, m) :: matched

/-- Source lines 79-82: the match result copied into the record. -/
def License.withMatch (license : License) (m : MatchResult) : License :=
  { license with
    Score := m.Score
    Template := m.Template
    ExtraWords := m.ExtraWords
    MissingWords := m.MissingWords }

/-- The loop `for _, info := range infos` of `listTopLevelLicenses`, with the
map `matched`, the slice `licenses`, and the calls made so far on license
files. It returns what the function returns and the calls made. -/
def licensesLoop {τ : Type} (h : Helpers τ) (templates : τ) (stdSet : String → Bool) :
    List PkgInfo → List (String × MatchResult) → List License → List Call →
    Except TopError (List License) × List Call
  | [], _, licenses, calls => (.ok licenses, calls)
  | info :: infos, matched, licenses, calls =>
    match info.Error with
    | some e =>
      licensesLoop h templates stdSet infos matched
        (licenses ++ [{ Package := info.Name, Err := e.Err }]) calls
    | none =>
      if stdSet info.ImportPath then licensesLoop h templates stdSet infos matched licenses calls
      else
        match h.findLicense info with
        | .error msg => (.error (TopError.findLicense msg), calls)
        | .ok path =>
          let license : License := { Package := info.ImportPath, Path := path }
          if path ≠ "" then
            let fpath := filepathJoin [info.Root, "src", path]
            match cacheLookup matched fpath with
            | some m =>
              licensesLoop h templates stdSet infos matched
                (licenses ++ [license.withMatch m]) calls
            | none =>
              match h.readFile fpath with
              | .error msg => (.error (TopError.readFile msg), calls ++ [Call.readFile fpath])
              | .ok data =>
                let m := h.matchTemplates data templates
                licensesLoop h templates stdSet infos (cacheStore matched fpath m)
                  (licenses ++ [license.withMatch m])
                  (calls ++ [Call.readFile fpath, Call.matchTemplates fpath data])
          else licensesLoop h templates stdSet infos matched (licenses ++ [license]) calls

/-- Source `listTopLevelLicenses(gopath, pkgs)`: `arg1` is `os.Args[1]`, `root`
the file system found there, `keysOrder` the iteration order of the map of
`listAllImports` and `goList` the tool chain. It returns what the function
returns and the calls made on license files. -/
def listTopLevelLicenses {τ : Type} (h : Helpers τ)
    (goList : String → List String → CmdOutput)
    (keysOrder : ImportSet → List String) (arg1 : String) (root : FsNode)
    (gopath : String) (pkgs : List String) :
    Except TopError (List License) × List Call :=
  match h.loadTemplates with
  | .error msg => (.error (TopError.loadTemplates msg), [])
  | .ok templates =>
    match listAllImports keysOrder arg1 root with
    | .error e => (.error (TopError.listDeps pkgs e), [])
    | .ok deps =>
      match h.listStandardPackages gopath with
      | .error msg => (.error (TopError.listStd msg), [])
      | .ok std =>
        let stdSet : String → Bool := fun n => std.contains n
        match getTopLevelPackagesInfo goList gopath deps with
        | .error e => (.error (TopError.pkgsInfo e), [])
        | .ok infos => licensesLoop h templates stdSet infos [] [] []

/-! ## Shape of the text read by the loops -/

/-- A complete line: text without a newline, followed by a newline. -/
def IsLine (l : List Char) : Prop :=
  ∃ s, l = s ++ ['\n'] ∧ '\n' ∉ s

/-- The lines that one call of `parseImportBlock` consumes: lines without a
closing parenthesis, then a line with one. -/
inductive BlockLines : List Char → Prop where
  | close (l : List Char) : IsLine l → stringsContains l [')'] = true → BlockLines l
  | cons (l rest : List Char) : IsLine l → stringsContains l [')'] = false →
      BlockLines rest → BlockLines (l ++ rest)

/-- Text that the read loop of `listAllImports` consumes without stopping:
lines without `func` that open no grouped block, and lines without `func`
that open a grouped block, each followed by the lines of its block. -/
inductive OuterLines : List Char → Prop where
  | nil : OuterLines []
  | plain (l rest : List Char) : IsLine l →
      stringsContains l funcToken = false →
      (stringsContains l importToken && stringsContains l ['(']) = false →
      OuterLines rest → OuterLines (l ++ rest)
  | block (l b rest : List Char) : IsLine l →
      stringsContains l funcToken = false →
      stringsContains l importToken = true → stringsContains l ['('] = true →
      BlockLines b → OuterLines rest → OuterLines (l ++ (b ++ rest))

/-- Invariant of the loop of `listTopLevelLicenses`: a file is read and scored
at most once, and not at all while the cache has no entry for it. -/
def CacheInv (matched : List (String × MatchResult)) (calls : List Call) : Prop :=
  ∀ fp, readsOf calls fp ≤ 1 ∧ matchesOf calls fp ≤ 1 ∧
    (cacheLookup matched fp = none → readsOf calls fp = 0 ∧ matchesOf calls fp = 0)

/-! ## Sample source trees -/

/-- Sample source tree: `proj/a.go` references `lib/x`, and
`proj/vendor/v.go` references `only/vendor`. -/
def vendoredTree : FsNode :=
  .dir "proj" true
    [.file "a.go" true "import \"lib/x\"\n" false,
     .dir "vendor" true [.file "v.go" true "import \"only/vendor\"\n" false]]

/-- Sample text: a file up to and including its first line with `func`; that
line also contains `import` and an opening parenthesis. -/
def importDataHead : String := "package main\n\nfunc importData() string \x7b\n"

/-- Sample text: the rest of the function that `importDataHead` opens. -/
def importDataBody : String := "\treturn \"hello\"\n\x7d\n"

/-- Sample source tree with the single file `proj/main.go`. -/
def singleFileTree (content : String) : FsNode :=
  .dir "proj" true [.file "main.go" true content false]

/-- Sample text: lines before the first function, with a grouped import block. -/
def samplePre : List Char :=
  "package main\n".toList ++ ("import (\n".toList ++ (("\t\"fmt\"\n".toList ++ ")\n".toList) ++ []))

/-- Sample text: the first line of a function. -/
def sampleFuncLine : List Char := "func main() \x7b\n".toList

/-- Sample text: the body of the function. -/
def samplePost : List Char := "\tfmt.Println(\"hello\")\n\x7d\n".toList

/-- The module of the end-to-end scenario, the files exactly as the scenario
writes them: no file ends with a newline. -/
def scenarioTree : FsNode :=
  .dir "mod" true
    [.file "a.go" true "import \"lib/x\"" false,
     .file "b.go" true "import ( \"lib/y\"\n \"std/fmt\" )" false]

/-- The module of the end-to-end scenario, every line ended by a newline. -/
def scenarioTreeNewlines : FsNode :=
  .dir "mod" true
    [.file "a.go" true "import \"lib/x\"\n" false,
     .file "b.go" true "import ( \"lib/y\"\n \"std/fmt\" )\n" false]

/-! ## Sample tool chains -/

/-- Sample record: the primary answer for `foo`, a failure without a name. -/
def primaryFoo : PkgInfo :=
  { Name := "", Root := "", ImportPath := "foo", Error := some ⟨"cannot find package"⟩ }

/-- Sample record: the answer of the vendor retry for `foo`. -/
def vendorFoo : PkgInfo :=
  { Name := "foo", Root := "/go",
    ImportPath := "src.sevone.com/eng/platform/apical/vendor/foo", Error := none }

/-- Sample tool chain: `foo` is unknown to the primary query and found under
the vendor root. -/
def goListVendored : String → List String → CmdOutput :=
  fun _ args =>
    if args = listArgs ["foo"] then ⟨false, "", [primaryFoo]⟩
    else ⟨false, "", [vendorFoo]⟩

/-- Sample tool chain: `foo` is unknown to the primary query and to the vendor
retry. -/
def goListUnknown : String → List String → CmdOutput :=
  fun _ _ => ⟨false, "", [primaryFoo]⟩

/-- Sample tool chain: `foo` is unknown to the primary query, and the vendor
retry cannot be run. -/
def goListVendorDown : String → List String → CmdOutput :=
  fun _ args =>
    if args = listArgs ["foo"] then ⟨false, "", [primaryFoo]⟩
    else ⟨true, "exit status 1", []⟩

/-- Sample tool chain: the records for `a` and `b` come back in the opposite
order. -/
def goListSwapped : String → List String → CmdOutput :=
  fun _ _ =>
    ⟨false, "", [⟨"b", "/go", "b", none⟩, ⟨"a", "/go", "a", none⟩]⟩

/-! ## Sample license helpers -/

/-- Sample helpers: every package has the license file `LICENSE`, every file
reads as `text` and matches the template `MIT`. -/
def sampleHelpers : Helpers Unit :=
  { loadTemplates := .ok ()
    listStandardPackages := fun _ => .ok ["fmt"]
    findLicense := fun _ => .ok "LICENSE"
    readFile := fun _ => .ok "text"
    matchTemplates := fun _ _ => ⟨"MIT", 1, [], []⟩ }

/-- Sample record: the standard package `fmt`, resolved with an error. -/
def brokenFmt : PkgInfo :=
  { Name := "fmt", Root := "/goroot", ImportPath := "fmt",
    Error := some ⟨"build constraints exclude all Go files"⟩ }

/-- Sample tool chain: the standard package `fmt` resolves with an error. -/
def goListBrokenFmt : String → List String → CmdOutput :=
  fun _ _ => ⟨false, "", [brokenFmt]⟩

/-- Sample source tree: the single file `main.go` imports `fmt`. -/
def fmtTree : FsNode :=
  .dir "proj" true [.file "main.go" true "package main\nimport \"fmt\"\n" false]

/-- Sample records: two packages of one repository, below the same root. -/
def subPackages : List PkgInfo :=
  [⟨"a", "/go", "lib/a", none⟩, ⟨"b", "/go", "lib/b", none⟩]

/-! ## Further sample inputs -/

/-- Sample source tree: two files reference `lib/x`, one of them twice. -/
def repeatedTree : FsNode :=
  .dir "proj" true
    [.file "a.go" true "import (\n\t\"lib/x\"\n\t\"lib/y\"\n\t\"lib/x\"\n)\n" false,
     .file "b.go" true "import \"lib/x\"\n" false]

/-! ## Shape of the lines of a grouped block -/

/-- A line whose first double quote opens the quoted string `p`: the text
`pre`, then `p` between double quotes, then the text `post`, then a newline. -/
def quotedLine (pre p post : List Char) : List Char :=
  pre ++ '\x22' :: (p ++ '\x22' :: (post ++ ['\n']))

/-- Description of one line of a grouped block: the text `pre` before the
first double quote of the line and, when the line has one, the quoted string
that this double quote opens and the text after its closing quote. -/
structure BlockLine where
  pre : List Char
  lit : Option (List Char × List Char)

/-- The characters of the line, its newline included. -/
def BlockLine.text (b : BlockLine) : List Char :=
  match b.lit with
  | none => b.pre ++ ['\n']
  | some (p, post) => quotedLine b.pre p post

/-- The first quoted string of the line, without its quotes. -/
def BlockLine.first (b : BlockLine) : Option String :=
  b.lit.map (fun q => String.mk q.1)

/-- The description fits a line: `pre` has no double quote, the quoted string
is not empty and has no double quote, and nothing but the end is a newline. -/
def BlockLine.WellFormed (b : BlockLine) : Prop :=
  '\x22' ∉ b.pre ∧ '\n' ∉ b.pre ∧
    ∀ p post, b.lit = some (p, post) → p ≠ [] ∧ '\x22' ∉ p ∧ '\n' ∉ p ∧ '\n' ∉ post

/-- Sample text: a grouped block with two quoted strings on one line. -/
def twoOnOneLine : List Char := "\t\"lib/a\"; \"lib/b\"\n)\n".toList

/-- Sample text: a grouped block whose line holds an empty quoted string and
then the quoted string `x`. -/
def emptyThenQuoted : List Char := "\t\"\" \"x\"\n)\n".toList

/-- Sample block line: the first line of `twoOnOneLine`, whose first quoted
string is `lib/a`. -/
def sampleBodyLine : BlockLine :=
  ⟨"\t".toList, some ("lib/a".toList, "; \"lib/b\"".toList)⟩

/-- Sample block line: the closing line of `twoOnOneLine`. -/
def sampleCloseLine : BlockLine := ⟨")".toList, none⟩

/-- The line of a grouped block for the path `p`: a blank, `p` between double
quotes, a newline. -/
def pathLine (p : String) : List Char :=
  quotedLine [' '] p.toList []

/-- The opening line of a grouped block. -/
def groupOpenLine : List Char := "import (\n".toList

/-- The closing line of a grouped block. -/
def groupCloseLine : List Char := ")\n".toList

/-- The text of a file that is one grouped block: the opening line, one line
per path, the closing line. -/
def groupedBlockText (ps : List String) : List Char :=
  groupOpenLine ++ ((ps.map pathLine).flatten ++ groupCloseLine)

/-- Sample source tree: between two readable files stands an entry on which
`os.Lstat` fails. -/
def brokenEntryTree : FsNode :=
  .dir "proj" true
    [.file "a.go" true "import \"lib/x\"\n" false,
     .broken "b.go",
     .file "c.go" true "import \"lib/z\"\n" false]

/-- Sample source tree: the file `b.go` cannot be opened. -/
def unopenableTree : FsNode :=
  .dir "proj" true
    [.file "a.go" true "import \"lib/x\"\n" false,
     .file "b.go" false "" false]

/-- Sample source tree: reading `b.go` fails after its first line. -/
def unreadableTree : FsNode :=
  .dir "proj" true
    [.file "a.go" true "import \"lib/x\"\n" false,
     .file "b.go" true "package b\n" true]

/-- The text of a file that is one single-import line for the path `c`, ended
by a newline: the word `import`, a blank, `c` between double quotes. -/
def singleImportText (c : String) : List Char :=
  quotedLine ['i', 'm', 'p', 'o', 'r', 't', ' '] c.toList []

/-! ## Scoring without a cache -/

/-- The record of one package when its license file is read and scored on
the spot, without looking into a cache; this follows the words of the
specification (`scoring each package without a cache`), not the source.
`none` stands for a package that is left out. -/
def uncachedRecord {τ : Type} (h : Helpers τ) (templates : τ) (stdSet : String → Bool)
    (info : PkgInfo) : Except TopError (Option License) :=
  match info.Error with
  | some e => .ok (some { Package := info.Name, Err := e.Err })
  | none =>
    if stdSet info.ImportPath then .ok none
    else
      match h.findLicense info with
      | .error msg => .error (TopError.findLicense msg)
      | .ok path =>
        if path ≠ "" then
          match h.readFile (filepathJoin [info.Root, "src", path]) with
          | .error msg => .error (TopError.readFile msg)
          | .ok data =>
            .ok (some (License.withMatch { Package := info.ImportPath, Path := path }
              (h.matchTemplates data templates)))
        else .ok (some { Package := info.ImportPath, Path := path })

/-- The records of a list of packages without a cache: the records of the
packages in order, appended to `licenses`, or the first error. -/
def uncachedLicenses {τ : Type} (h : Helpers τ) (templates : τ) (stdSet : String → Bool) :
    List PkgInfo → List License → Except TopError (List License)
  | [], licenses => .ok licenses
  | info :: infos, licenses =>
    match uncachedRecord h templates stdSet info with
    | .error e => .error e
    | .ok none => uncachedLicenses h templates stdSet infos licenses
    | .ok (some license) => uncachedLicenses h templates stdSet infos (licenses ++ [license])

/-- The record that `uncachedRecord` gives for a package, `none` when the
package is left out or its lookup fails. -/
def recordOption {τ : Type} (h : Helpers τ) (templates : τ) (stdSet : String → Bool)
    (info : PkgInfo) : Option License :=
  match uncachedRecord h templates stdSet info with
  | .ok o => o
  | .error _ => none

/-- Every entry of the cache is what scoring the bytes of its file gives. -/
def CacheSound {τ : Type} (h : Helpers τ) (templates : τ)
    (matched : List (String × MatchResult)) : Prop :=
  ∀ fp m, cacheLookup matched fp = some m →
    ∃ data, h.readFile fp = .ok data ∧ m = h.matchTemplates data templates

/-- Sample records: a standard package between two packages of a library. -/
def mixedPackages : List PkgInfo :=
  [⟨"a", "/go", "lib/a", none⟩, ⟨"fmt", "/goroot", "fmt", none⟩, ⟨"b", "/go", "lib/b", none⟩]

/-- Sample helpers: no package has a license file, and no file can be read. -/
def noLicenseHelpers : Helpers Unit :=
  { loadTemplates := .ok ()
    listStandardPackages := fun _ => .ok ["fmt"]
    findLicense := fun _ => .ok ""
    readFile := fun _ => .error "no such file"
    matchTemplates := fun _ _ => ⟨"MIT", 1, [], []⟩ }

/-! ## A tool chain that answers package by package -/

/-- What the loop of `getTopLevelPackagesInfo` makes of the requested path
`pkg` when the record decoded for it is `answer pkg`: the mismatch error, the
outcome of the vendor retry, or the record itself. -/
def resolveOne (goList : String → List String → CmdOutput) (gopath : String)
    (answer : String → PkgInfo) (pkg : String) : Except PkgsError PkgInfo :=
  if pkg ≠ (answer pkg).ImportPath then
    .error (PkgsError.mismatch pkg (answer pkg).ImportPath)
  else if (answer pkg).failed then tryVendor goList gopath pkg (answer pkg)
  else .ok (answer pkg)

/-- The record of `resolveOne`, `none` when it is an error. -/
def resolvedOption (goList : String → List String → CmdOutput) (gopath : String)
    (answer : String → PkgInfo) (pkg : String) : Option PkgInfo :=
  match resolveOne goList gopath answer pkg with
  | .ok r => some r
  | .error _ => none

/-- Sample tool chain: every requested path is answered by a record with
that path as name and `ImportPath`, in the order of the request. -/
def goListEcho : String → List String → CmdOutput :=
  fun _ args => ⟨false, "", (args.drop 3).map (fun p => ⟨p, "/go", p, none⟩)⟩

/-- Sample source tree: one file with two single imports. -/
def twoImportsTree : FsNode :=
  .dir "proj" true
    [.file "main.go" true "package main\nimport \"lib/a\"\nimport \"lib/b\"\n" false]

/-! ## Theorems about the import scanner -/

theorem splitLine_some {buf l rest : List Char} (h : splitLine buf = some (l, rest)) :
    buf = l ++ rest ∧ 0 < l.length := by
  induction buf generalizing l with
  | nil => simp [splitLine] at h
  | cons c cs ih =>
    simp only [splitLine] at h
    by_cases hc : c = '\n'
    · simp only [hc, if_true, Option.some.injEq, Prod.mk.injEq] at h
      obtain ⟨rfl, rfl⟩ := h
      simp [hc]
    · simp only [hc, if_false] at h
      cases hs : splitLine cs with
      | none => simp [hs] at h
      | some p =>
        obtain ⟨l1, r1⟩ := p
        simp only [hs, Option.some.injEq, Prod.mk.injEq] at h
        obtain ⟨rfl, rfl⟩ := h
        have := ih hs
        simp [this.1]

theorem readString_ok_length {r r1 : Reader} {line : List Char}
    (h : r.ReadString = (line, none, r1)) :
    r1.buf.length < r.buf.length ∧ r1.failing = r.failing := by
  unfold Reader.ReadString at h
  cases hs : splitLine r.buf with
  | none => simp [hs] at h
  | some p =>
    obtain ⟨l, rest⟩ := p
    simp only [hs, Prod.mk.injEq, true_and] at h
    obtain ⟨_, rfl⟩ := h
    have := splitLine_some hs
    simp only [this.1, List.length_append]
    exact ⟨by omega, trivial⟩

theorem parseImportBlockLoop_reader_le (fuel : Nat) :
    ∀ (r : Reader) (acc : List String),
      (parseImportBlockLoop fuel r acc).2.buf.length ≤ r.buf.length := by
  induction fuel with
  | zero => intro r acc; simp [parseImportBlockLoop]
  | succ n ih =>
    intro r acc
    simp only [parseImportBlockLoop]
    rcases hrs : r.ReadString with ⟨line, err, r1⟩
    cases err with
    | some e =>
      have : r1.buf.length ≤ r.buf.length := by
        unfold Reader.ReadString at hrs
        cases hs : splitLine r.buf with
        | none =>
          simp only [hs, Prod.mk.injEq] at hrs
          obtain ⟨_, _, rfl⟩ := hrs
          simp
        | some p => simp [hs] at hrs
      cases e <;> simpa using this
    | none =>
      have hlt := (readString_ok_length hrs).1
      simp only []
      split
      · simp only []; omega
      · have := ih r1 (if findString line ≠ [] then
          acc ++ [String.mk (stringsTrim (findString line) ['\x22'])] else acc)
        omega

theorem parseImportBlockLoop_fuel (n : Nat) :
    ∀ (fuel1 fuel2 : Nat) (r : Reader) (acc : List String),
      r.buf.length ≤ n → r.buf.length < fuel1 → r.buf.length < fuel2 →
      parseImportBlockLoop fuel1 r acc = parseImportBlockLoop fuel2 r acc := by
  induction n with
  | zero =>
    intro fuel1 fuel2 r acc hn h1 h2
    obtain ⟨a, rfl⟩ : ∃ a, fuel1 = a + 1 := ⟨fuel1 - 1, by omega⟩
    obtain ⟨b, rfl⟩ : ∃ b, fuel2 = b + 1 := ⟨fuel2 - 1, by omega⟩
    simp only [parseImportBlockLoop]
    rcases hrs : r.ReadString with ⟨line, err, r1⟩
    cases err with
    | some e => cases e <;> rfl
    | none => have := (readString_ok_length hrs).1; omega
  | succ n ih =>
    intro fuel1 fuel2 r acc hn h1 h2
    obtain ⟨a, rfl⟩ : ∃ a, fuel1 = a + 1 := ⟨fuel1 - 1, by omega⟩
    obtain ⟨b, rfl⟩ : ∃ b, fuel2 = b + 1 := ⟨fuel2 - 1, by omega⟩
    simp only [parseImportBlockLoop]
    rcases hrs : r.ReadString with ⟨line, err, r1⟩
    cases err with
    | some e => cases e <;> rfl
    | none =>
      have hlt := (readString_ok_length hrs).1
      simp only []
      split
      · rfl
      · exact ih a b r1 _ (by omega) (by omega) (by omega)

theorem scanImportLine_reader_le (fPath : String) (line : List Char) (r r2 : Reader)
    (imports imports1 : ImportSet)
    (h : scanImportLine fPath line r imports = .ok (imports1, r2)) :
    r2.buf.length ≤ r.buf.length := by
  unfold scanImportLine at h
  split at h
  · split at h
    · have hle := parseImportBlockLoop_reader_le (r.buf.length + 1) r []
      unfold parseImportBlock at h
      split at h
      · simp at h
      · rename_i strs r1 heq
        simp only [Except.ok.injEq, Prod.mk.injEq] at h
        rw [heq] at hle
        rw [← h.2]; exact hle
    · simp only [Except.ok.injEq, Prod.mk.injEq] at h
      rw [← h.2]
  · simp only [Except.ok.injEq, Prod.mk.injEq] at h
    rw [← h.2]

/-- The fuel that the entry point passes to the read loop is enough: any
larger amount gives the same result. -/
theorem readLoop_fuel (fPath : String) (n : Nat) :
    ∀ (fuel1 fuel2 : Nat) (r : Reader) (imports : ImportSet),
      r.buf.length ≤ n → r.buf.length < fuel1 → r.buf.length < fuel2 →
      readLoop fPath fuel1 r imports = readLoop fPath fuel2 r imports := by
  induction n with
  | zero =>
    intro fuel1 fuel2 r imports hn h1 h2
    obtain ⟨a, rfl⟩ : ∃ a, fuel1 = a + 1 := ⟨fuel1 - 1, by omega⟩
    obtain ⟨b, rfl⟩ : ∃ b, fuel2 = b + 1 := ⟨fuel2 - 1, by omega⟩
    simp only [readLoop]
    rcases hrs : r.ReadString with ⟨line, err, r1⟩
    cases err with
    | some e => cases e <;> rfl
    | none => have := (readString_ok_length hrs).1; omega
  | succ n ih =>
    intro fuel1 fuel2 r imports hn h1 h2
    obtain ⟨a, rfl⟩ : ∃ a, fuel1 = a + 1 := ⟨fuel1 - 1, by omega⟩
    obtain ⟨b, rfl⟩ : ∃ b, fuel2 = b + 1 := ⟨fuel2 - 1, by omega⟩
    simp only [readLoop]
    rcases hrs : r.ReadString with ⟨line, err, r1⟩
    cases err with
    | some e => cases e <;> rfl
    | none =>
      have hlt := (readString_ok_length hrs).1
      simp only []
      cases hsc : scanImportLine fPath line r1 imports with
      | error e => rfl
      | ok res =>
        obtain ⟨imports1, r2⟩ := res
        have hle := scanImportLine_reader_le fPath line r1 r2 imports imports1 hsc
        simp only []
        split
        · rfl
        · exact ih a b r2 imports1 (by omega) (by omega) (by omega)

/-- The fuel that `parseImportBlock` passes to its loop is enough: any larger
amount gives the same result. -/
theorem parseImportBlock_fuel (fuel : Nat) (r : Reader) (h : r.buf.length < fuel) :
    parseImportBlockLoop fuel r [] = parseImportBlock r :=
  parseImportBlockLoop_fuel r.buf.length fuel (r.buf.length + 1) r [] (le_refl _) h
    (Nat.lt_succ_self _)

theorem splitLine_line (s rest : List Char) (hs : '\n' ∉ s) :
    splitLine (s ++ '\n' :: rest) = some (s ++ ['\n'], rest) := by
  induction s with
  | nil => simp [splitLine]
  | cons c cs ih =>
    have hc : c ≠ '\n' := fun h => hs (by simp [h])
    have hcs : '\n' ∉ cs := fun h => hs (by simp [h])
    simp [splitLine, hc, ih hcs]

theorem readString_line (l rest : List Char) (f : Bool) (hl : IsLine l) :
    Reader.ReadString ⟨l ++ rest, f⟩ = (l, none, ⟨rest, f⟩) := by
  obtain ⟨s, rfl, hs⟩ := hl
  simp [Reader.ReadString, splitLine_line s rest hs]

theorem IsLine.length_pos {l : List Char} (hl : IsLine l) : 0 < l.length := by
  obtain ⟨s, rfl, _⟩ := hl
  simp

theorem blockLines_length_pos {b : List Char} (hb : BlockLines b) : 0 < b.length := by
  cases hb with
  | close l hl _ => exact hl.length_pos
  | cons l rest hl _ _ => have := hl.length_pos; simp; omega

theorem parseImportBlockLoop_block {b : List Char} (hb : BlockLines b) :
    ∀ acc : List String, ∃ strs : List String, ∀ (fuel : Nat) (rest : List Char) (f : Bool),
      b.length ≤ fuel →
      parseImportBlockLoop fuel ⟨b ++ rest, f⟩ acc = (.ok strs, ⟨rest, f⟩) := by
  induction hb with
  | close l hl hc =>
    intro acc
    refine ⟨if findString l ≠ [] then acc ++ [String.mk (stringsTrim (findString l) ['\x22'])]
      else acc, ?_⟩
    intro fuel rest f hfuel
    have hpos := hl.length_pos
    obtain ⟨n, rfl⟩ : ∃ n, fuel = n + 1 := ⟨fuel - 1, by omega⟩
    simp only [parseImportBlockLoop, readString_line l rest f hl, hc, if_true]
  | cons l rest1 hl hc _ ih =>
    intro acc
    obtain ⟨strs, hstrs⟩ := ih (if findString l ≠ [] then
      acc ++ [String.mk (stringsTrim (findString l) ['\x22'])] else acc)
    refine ⟨strs, ?_⟩
    intro fuel rest f hfuel
    have hpos := hl.length_pos
    simp only [List.length_append] at hfuel
    obtain ⟨n, rfl⟩ : ∃ n, fuel = n + 1 := ⟨fuel - 1, by omega⟩
    simp only [parseImportBlockLoop, List.append_assoc, readString_line l _ f hl, hc,
      Bool.false_eq_true, if_false]
    exact hstrs n rest f (by omega)

theorem scanImportLine_plain (fPath : String) (l : List Char) (r : Reader)
    (imports : ImportSet)
    (hopen : (stringsContains l importToken && stringsContains l ['(']) = false) :
    scanImportLine fPath l r imports =
      .ok (if stringsContains l importToken = true then singleImport l imports else imports,
        r) := by
  unfold scanImportLine
  by_cases h2 : stringsContains l importToken = true
  · have h1 : stringsContains l ['('] = false := by
      rw [h2, Bool.true_and] at hopen; exact hopen
    simp only [h2, h1, if_true, Bool.false_eq_true, if_false]
  · simp only [h2, Bool.false_eq_true, if_false]

theorem readLoop_outer (fPath : String) {pre : List Char} (hpre : OuterLines pre) :
    ∀ imports : ImportSet, ∃ (imports1 : ImportSet) (k : Nat), k ≤ pre.length ∧
      ∀ (fuel : Nat) (tail : List Char) (f : Bool),
        readLoop fPath (fuel + k) ⟨pre ++ tail, f⟩ imports =
          readLoop fPath fuel ⟨tail, f⟩ imports1 := by
  induction hpre with
  | nil => intro imports; exact ⟨imports, 0, by simp, by intros; rfl⟩
  | plain l rest hl hfunc hopen _ ih =>
    intro imports
    obtain ⟨imports1, k, hk, hrun⟩ := ih
      (if stringsContains l importToken = true then singleImport l imports else imports)
    refine ⟨imports1, k + 1, by have := hl.length_pos; simp; omega, ?_⟩
    intro fuel tail f
    rw [show fuel + (k + 1) = (fuel + k) + 1 by omega]
    simp only [readLoop, List.append_assoc, readString_line l _ f hl,
      scanImportLine_plain fPath l _ imports hopen, hfunc, Bool.false_eq_true, if_false]
    exact hrun fuel tail f
  | block l b rest hl hfunc himp hpar hb _ ih =>
    intro imports
    obtain ⟨strs, hstrs⟩ := parseImportBlockLoop_block hb []
    obtain ⟨imports1, k, hk, hrun⟩ := ih (strs.foldl mapInsert imports)
    refine ⟨imports1, k + 1, by have := hl.length_pos; simp; omega, ?_⟩
    intro fuel tail f
    have hline : scanImportLine fPath l ⟨b ++ (rest ++ tail), f⟩ imports
        = .ok (strs.foldl mapInsert imports, ⟨rest ++ tail, f⟩) := by
      simp only [scanImportLine, himp, hpar, if_true, parseImportBlock]
      rw [hstrs _ (rest ++ tail) f (by simp; omega)]
    rw [show fuel + (k + 1) = (fuel + k) + 1 by omega]
    simp only [readLoop, List.append_assoc, readString_line l _ f hl, hline, hfunc,
      Bool.false_eq_true, if_false]
    exact hrun fuel tail f

theorem readLoop_func_line (fPath : String) (l : List Char) (hl : IsLine l)
    (hfunc : stringsContains l funcToken = true)
    (hopen : (stringsContains l importToken && stringsContains l ['(']) = false)
    (imports : ImportSet) (fuel : Nat) (post : List Char) (f : Bool) :
    readLoop fPath (fuel + 1) ⟨l ++ post, f⟩ imports =
      .ok (if stringsContains l importToken = true then singleImport l imports
        else imports) := by
  simp only [readLoop, readString_line l _ f hl,
    scanImportLine_plain fPath l _ imports hopen, hfunc, if_true]

/-- C1 on a concrete input: with the root `proj`, the walk does not prune
`proj/vendor`; the file `proj/vendor/v.go` is collected and scanned, and
the path `only/vendor`, which only that file references, is returned. -/
theorem vendor_directory_is_walked :
    filepathJoin ["proj", "vendor"] = "proj/vendor" ∧
    (filepathWalk (filepathJoin ["proj", "vendor"]) "proj" vendoredTree).2.map Prod.fst
      = ["proj/a.go", "proj/vendor/v.go"] ∧
    listAllImports id "proj" vendoredTree = .ok ["lib/x", "only/vendor"] := by
  decide

/-- C3, as stated, fails: the first line with `func` also contains `import`
and `(`, so `parseImportBlock` reads the function body and the string `hello`
of the body is returned; the file cut after that line gives nothing. -/
theorem string_of_function_body_is_returned :
    listAllImports id "proj" (singleFileTree (importDataHead ++ importDataBody))
      = .ok ["hello"] ∧
    listAllImports id "proj" (singleFileTree importDataHead) = .ok [] := by
  decide

/-- C3, amended: when the read loop of `listAllImports` itself reads a line
that contains `func` and does not contain both `import` and `(`, what it
extracts from the file depends only on the text up to and including that
line: any two files that agree up to there give the same result. -/
theorem scan_stops_at_func_line (fPath name : String) (pre l post post1 : List Char)
    (f f1 : Bool) (rest : List (String × FsNode)) (imports : ImportSet)
    (hpre : OuterLines pre) (hl : IsLine l)
    (hfunc : stringsContains l funcToken = true)
    (hopen : (stringsContains l importToken && stringsContains l ['(']) = false) :
    scanFiles ((fPath, FsNode.file name true (String.mk (pre ++ (l ++ post))) f) :: rest)
        imports =
      scanFiles ((fPath, FsNode.file name true (String.mk (pre ++ (l ++ post1))) f1) :: rest)
        imports := by
  have key : ∀ (post : List Char) (f : Bool),
      ∃ (imports1 : ImportSet),
      readLoop fPath ((pre ++ (l ++ post)).length + 1) ⟨pre ++ (l ++ post), f⟩ imports =
        .ok (if stringsContains l importToken = true then singleImport l imports1
          else imports1) ∧
      ∀ (post2 : List Char) (f2 : Bool),
        readLoop fPath ((pre ++ (l ++ post2)).length + 1) ⟨pre ++ (l ++ post2), f2⟩ imports =
          .ok (if stringsContains l importToken = true then singleImport l imports1
            else imports1) := by
    intro post f
    obtain ⟨imports1, k, hk, hrun⟩ := readLoop_outer fPath hpre imports
    have hall : ∀ (post2 : List Char) (f2 : Bool),
        readLoop fPath ((pre ++ (l ++ post2)).length + 1) ⟨pre ++ (l ++ post2), f2⟩ imports =
          .ok (if stringsContains l importToken = true then singleImport l imports1
            else imports1) := by
      intro post2 f2
      have hpos := hl.length_pos
      have hfuel : (pre ++ (l ++ post2)).length + 1
          = ((pre.length - k + l.length + post2.length) + 1) + k := by
        simp only [List.length_append]; omega
      rw [hfuel, hrun]
      exact readLoop_func_line fPath l hl hfunc hopen imports1 _ post2 f2
    exact ⟨imports1, hall post f, hall⟩
  obtain ⟨imports1, _, hall⟩ := key post f
  simp only [scanFiles, osOpen, String.toList, hall post f, hall post1 f1]

/-- Witness of amended C3: a file with a grouped import block before
`func main`. -/
theorem scan_stops_at_func_line_witness :
    OuterLines samplePre ∧ IsLine sampleFuncLine ∧
    stringsContains sampleFuncLine funcToken = true ∧
    (stringsContains sampleFuncLine importToken && stringsContains sampleFuncLine ['('])
      = false ∧
    scanFiles [("proj/main.go",
        FsNode.file "main.go" true (String.mk (samplePre ++ (sampleFuncLine ++ samplePost)))
          false)] [] =
      scanFiles [("proj/main.go",
        FsNode.file "main.go" true (String.mk (samplePre ++ (sampleFuncLine ++ []))) false)]
        [] :=
  have hpre : OuterLines samplePre :=
    OuterLines.plain _ _ ⟨"package main".toList, by decide, by decide⟩ (by decide) (by decide)
      (OuterLines.block _ _ _ ⟨"import (".toList, by decide, by decide⟩ (by decide)
        (by decide) (by decide)
        (BlockLines.cons _ _ ⟨"\t\"fmt\"".toList, by decide, by decide⟩ (by decide)
          (BlockLines.close _ ⟨")".toList, by decide, by decide⟩ (by decide)))
        OuterLines.nil)
  have hl : IsLine sampleFuncLine := ⟨"func main() \x7b".toList, by decide, by decide⟩
  ⟨hpre, hl, by decide, by decide,
    scan_stops_at_func_line "proj/main.go" "main.go" samplePre sampleFuncLine samplePost []
      false false [] [] hpre hl (by decide) (by decide)⟩

/-- C4, as stated, fails: with the files exactly as written, the last line of
each file has no newline and is dropped, so nothing is returned; with every
line ended by a newline, `lib/x` and `std/fmt` are returned. In both cases
`lib/y`, on the line that opens the group, is not returned. -/
theorem scenario_misses_lib_y :
    listAllImports id "mod" scenarioTree = .ok [] ∧
    listAllImports id "mod" scenarioTreeNewlines = .ok ["lib/x", "std/fmt"] := by
  decide

theorem listAllImports_eq (keysOrder : ImportSet → List String) (fPath : String)
    (root : FsNode) (imports : ImportSet)
    (h : listAllImports id fPath root = .ok imports) :
    listAllImports keysOrder fPath root = .ok (keysOrder imports) := by
  unfold listAllImports at h ⊢
  cases hs : scanFiles (filepathWalk (filepathJoin [fPath, "vendor"]) fPath root).2 [] with
  | error e => simp [hs] at h
  | ok m =>
    simp only [hs, id, Except.ok.injEq] at h
    simp only [hs, h]

/-- C4, amended: for the module of the scenario with every line ended by a
newline, `listAllImports` returns `lib/x` and `std/fmt` in some order and not
`lib/y`; after the members of the standard set `std/fmt` are removed, exactly
`lib/x` remains. -/
theorem scenario_returns_lib_x_and_std_fmt (keysOrder : ImportSet → List String)
    (hperm : ∀ m, (keysOrder m).Perm m) :
    ∃ deps, listAllImports keysOrder "mod" scenarioTreeNewlines = .ok deps ∧
      deps.Perm ["lib/x", "std/fmt"] ∧ "lib/y" ∉ deps ∧
      deps.filter (fun d => !(["std/fmt"].contains d)) = ["lib/x"] := by
  refine ⟨keysOrder ["lib/x", "std/fmt"],
    listAllImports_eq keysOrder "mod" scenarioTreeNewlines _ (by decide), hperm _, ?_, ?_⟩
  · intro hmem
    have := (hperm ["lib/x", "std/fmt"]).mem_iff.mp hmem
    revert this
    decide
  · have hp := (hperm ["lib/x", "std/fmt"]).filter (fun d => !(["std/fmt"].contains d))
    have hf : (["lib/x", "std/fmt"] : List String).filter
        (fun d => !(["std/fmt"].contains d)) = ["lib/x"] := by decide
    rw [hf] at hp
    exact List.perm_singleton.mp hp

/-- Witness of amended C4 with the keys listed in reverse order of insertion. -/
theorem scenario_returns_lib_x_and_std_fmt_witness :
    (∀ m : ImportSet, (List.reverse m).Perm m) ∧
    ∃ deps, listAllImports List.reverse "mod" scenarioTreeNewlines = .ok deps ∧
      deps.Perm ["lib/x", "std/fmt"] ∧ "lib/y" ∉ deps ∧
      deps.filter (fun d => !(["std/fmt"].contains d)) = ["lib/x"] :=
  ⟨fun m => List.reverse_perm m,
    scenario_returns_lib_x_and_std_fmt List.reverse (fun m => List.reverse_perm m)⟩

/-! ## Theorems about the package resolver -/

theorem resolveLoop_ok (goList : String → List String → CmdOutput) (gopath : String) :
    ∀ (pkgs : List String) (decoder infos res : List PkgInfo),
      resolveLoop goList gopath pkgs decoder infos = .ok res →
      ∃ outs, res = infos ++ outs ∧ outs.length = pkgs.length ∧
        ∀ (i : Nat) (p : String), pkgs[i]? = some p →
          ∃ (info r : PkgInfo), decoder[i]? = some info ∧ outs[i]? = some r ∧ p = info.ImportPath ∧
            (if info.failed then tryVendor goList gopath p info = .ok r else r = info) := by
  intro pkgs
  induction pkgs with
  | nil =>
    intro decoder infos res h
    simp only [resolveLoop, Except.ok.injEq] at h
    exact ⟨[], by simp [h], rfl, by simp⟩
  | cons pkg pkgs ih =>
    intro decoder infos res h
    cases decoder with
    | nil => simp [resolveLoop] at h
    | cons info decoder1 =>
      simp only [resolveLoop] at h
      by_cases hm : pkg = info.ImportPath
      · simp only [hm, ne_eq, not_true_eq_false, if_false] at h
        by_cases hf : info.failed = true
        · simp only [hf, if_true] at h
          cases hv : tryVendor goList gopath info.ImportPath info with
          | error e => simp [hv] at h
          | ok info1 =>
            simp only [hv] at h
            obtain ⟨outs, hres, hlen, hall⟩ := ih decoder1 _ res h
            refine ⟨info1 :: outs, by simp [hres], by simp [hlen], ?_⟩
            intro i p hp
            cases i with
            | zero =>
              simp only [List.getElem?_cons_zero, Option.some.injEq] at hp
              subst hp
              exact ⟨info, info1, by simp, by simp, hm, by simp [hf, hm ▸ hv]⟩
            | succ j =>
              simp only [List.getElem?_cons_succ] at hp ⊢
              exact hall j p hp
        · simp only [hf, Bool.false_eq_true, if_false] at h
          obtain ⟨outs, hres, hlen, hall⟩ := ih decoder1 _ res h
          refine ⟨info :: outs, by simp [hres], by simp [hlen], ?_⟩
          intro i p hp
          cases i with
          | zero =>
            simp only [List.getElem?_cons_zero, Option.some.injEq] at hp
            subst hp
            exact ⟨info, info, by simp, by simp, hm, by simp [hf]⟩
          | succ j =>
            simp only [List.getElem?_cons_succ] at hp ⊢
            exact hall j p hp
      · simp [hm] at h

theorem resolveLoop_mismatch (goList : String → List String → CmdOutput) (gopath : String) :
    ∀ (pkgs : List String) (decoder infos : List PkgInfo) (i : Nat) (p : String) (r : PkgInfo),
      pkgs[i]? = some p → decoder[i]? = some r → r.ImportPath ≠ p →
      ∃ e, resolveLoop goList gopath pkgs decoder infos = .error e := by
  intro pkgs
  induction pkgs with
  | nil => intro decoder infos i p r hp; simp at hp
  | cons pkg pkgs ih =>
    intro decoder infos i p r hp hr hne
    cases decoder with
    | nil => simp at hr
    | cons info decoder1 =>
      simp only [resolveLoop]
      by_cases hm : pkg = info.ImportPath
      · simp only [hm, ne_eq, not_true_eq_false, if_false]
        cases i with
        | zero =>
          simp only [List.getElem?_cons_zero, Option.some.injEq] at hp hr
          subst hp hr
          exact absurd hm.symm hne
        | succ j =>
          simp only [List.getElem?_cons_succ] at hp hr
          by_cases hf : info.failed = true
          · simp only [hf, if_true]
            cases hv : tryVendor goList gopath info.ImportPath info with
            | error e => exact ⟨e, rfl⟩
            | ok info1 => exact ih decoder1 _ j p r hp hr hne
          · simp only [hf, Bool.false_eq_true, if_false]
            exact ih decoder1 _ j p r hp hr hne
      · exact ⟨PkgsError.mismatch pkg info.ImportPath, by simp [hm]⟩

theorem tryVendor_ok_iff (goList : String → List String → CmdOutput) (gopath pkg : String)
    (info : PkgInfo) :
    (∃ r, tryVendor goList gopath pkg info = .ok r) ↔
      (goList gopath (vendorArgs info.ImportPath)).failed = false ∧
      (goList gopath (vendorArgs info.ImportPath)).records ≠ [] := by
  cases hf : (goList gopath (vendorArgs info.ImportPath)).failed with
  | true => simp [tryVendor, hf]
  | false =>
    cases hr : (goList gopath (vendorArgs info.ImportPath)).records with
    | nil => simp [tryVendor, hf, hr]
    | cons v vs =>
      by_cases hvf : v.failed = true <;> simp [tryVendor, hf, hr, hvf]

theorem resolveLoop_ok_iff (goList : String → List String → CmdOutput) (gopath : String) :
    ∀ (decoder : List PkgInfo) (infos : List PkgInfo),
      (∃ res, resolveLoop goList gopath (decoder.map PkgInfo.ImportPath) decoder infos
          = .ok res) ↔
      ∀ info ∈ decoder, info.failed = true →
        (goList gopath (vendorArgs info.ImportPath)).failed = false ∧
        (goList gopath (vendorArgs info.ImportPath)).records ≠ [] := by
  intro decoder
  induction decoder with
  | nil => intro infos; simp [resolveLoop]
  | cons info decoder1 ih =>
    intro infos
    simp only [List.map_cons, resolveLoop, ne_eq, not_true_eq_false, if_false,
      List.mem_cons, forall_eq_or_imp]
    by_cases hf : info.failed = true
    · simp only [hf, if_true, forall_const]
      cases hv : tryVendor goList gopath info.ImportPath info with
      | error e =>
        have h1 := (tryVendor_ok_iff goList gopath info.ImportPath info).not.mp
          (by simp [hv])
        constructor
        · intro h; simp at h
        · intro h; exact absurd h.1 h1
      | ok info1 =>
        have h1 := (tryVendor_ok_iff goList gopath info.ImportPath info).mp ⟨info1, hv⟩
        simp only [ih]
        constructor
        · intro h; exact ⟨h1, h⟩
        · intro h; exact h.2
    · simp only [hf, Bool.false_eq_true, if_false, false_implies, true_and]
      exact ih _


/-- C5: if the record decoded at position `i` reports an `ImportPath` other
than the `i`-th requested path, `getTopLevelPackagesInfo` returns an error and
no package list. -/
theorem getTopLevelPackagesInfo_mismatch_fails
    (goList : String → List String → CmdOutput) (gopath : String) (pkgs : List String)
    (i : Nat) (p : String) (r : PkgInfo)
    (hp : pkgs[i]? = some p)
    (hr : (goList gopath (listArgs pkgs)).records[i]? = some r)
    (hne : r.ImportPath ≠ p) :
    ∃ e, getTopLevelPackagesInfo goList gopath pkgs = .error e := by
  unfold getTopLevelPackagesInfo
  by_cases hf : (goList gopath (listArgs pkgs)).failed = true
  · exact ⟨PkgsError.goFailed (listArgs pkgs) (goList gopath (listArgs pkgs)).out,
      by simp only [hf, if_true]⟩
  · simp only [hf, Bool.false_eq_true, if_false]
    exact resolveLoop_mismatch goList gopath pkgs _ [] i p r hp hr hne

/-- Witness of C5 on the swapped-order tool chain. -/
theorem getTopLevelPackagesInfo_mismatch_fails_witness :
    ["a", "b"][0]? = some "a" ∧
    (goListSwapped "/go" (listArgs ["a", "b"])).records[0]? = some ⟨"b", "/go", "b", none⟩ ∧
    (⟨"b", "/go", "b", none⟩ : PkgInfo).ImportPath ≠ "a" ∧
    ∃ e, getTopLevelPackagesInfo goListSwapped "/go" ["a", "b"] = .error e :=
  ⟨by decide, by decide, by decide,
    getTopLevelPackagesInfo_mismatch_fails goListSwapped "/go" ["a", "b"] 0 "a"
      ⟨"b", "/go", "b", none⟩ (by decide) (by decide) (by decide)⟩

/-- C6, as stated, fails: on the sample tool chain the batch succeeds and the
record returned for the requested path `foo` is the vendor record, whose
`ImportPath` is not `foo`. -/
theorem vendor_record_keeps_its_importPath :
    getTopLevelPackagesInfo goListVendored "/go" ["foo"] = .ok [vendorFoo] ∧
    vendorFoo.ImportPath ≠ "foo" := by
  decide

/-- C6, amended: when `getTopLevelPackagesInfo` succeeds, the record returned
at position `i` has the `i`-th requested path as its `ImportPath`, unless it is
the record that the vendor retry decoded in place of a failed primary record. -/
theorem importPath_eq_requested_unless_vendor
    (goList : String → List String → CmdOutput) (gopath : String) (pkgs : List String)
    (res : List PkgInfo) (i : Nat) (p : String) (r : PkgInfo)
    (hok : getTopLevelPackagesInfo goList gopath pkgs = .ok res)
    (hp : pkgs[i]? = some p) (hr : res[i]? = some r) :
    r.ImportPath = p ∨
      ∃ info, (goList gopath (listArgs pkgs)).records[i]? = some info ∧
        info.failed = true ∧
        (goList gopath (vendorArgs p)).records.head? = some r ∧ r.failed = false := by
  unfold getTopLevelPackagesInfo at hok
  by_cases hf : (goList gopath (listArgs pkgs)).failed = true
  · simp [hf] at hok
  · simp only [hf, Bool.false_eq_true, if_false] at hok
    obtain ⟨outs, hres, _, hall⟩ := resolveLoop_ok goList gopath pkgs _ [] res hok
    obtain ⟨info, r1, hinfo, hr1, hpi, hcase⟩ := hall i p hp
    simp only [List.nil_append] at hres
    subst hres
    rw [hr1, Option.some.injEq] at hr
    subst hr
    by_cases hfail : info.failed = true
    · simp only [hfail, if_true] at hcase
      unfold tryVendor at hcase
      rw [← hpi] at hcase
      by_cases hvf : (goList gopath (vendorArgs p)).failed = true
      · simp [hvf] at hcase
      · simp only [hvf, Bool.false_eq_true, if_false] at hcase
        cases hrec : (goList gopath (vendorArgs p)).records with
        | nil => simp [hrec] at hcase
        | cons v vs =>
          simp only [hrec] at hcase
          by_cases hv : v.failed = true
          · simp only [hv, Bool.not_true, Bool.false_eq_true, if_false,
              Except.ok.injEq] at hcase
            left; rw [← hcase]
          · simp only [hv, Bool.not_false, if_true, Except.ok.injEq,
              Bool.not_eq_true] at hcase
            right
            refine ⟨info, hinfo, hfail, ?_, ?_⟩
            · simp [hcase]
            · rw [← hcase]; simpa using hv
    · simp only [hfail, Bool.false_eq_true, if_false] at hcase
      left; rw [hcase]; exact hpi.symm

/-- Witness of amended C6 on the sample tool chain with a vendored package. -/
theorem importPath_eq_requested_unless_vendor_witness :
    getTopLevelPackagesInfo goListVendored "/go" ["foo"] = .ok [vendorFoo] ∧
    ["foo"][0]? = some "foo" ∧ [vendorFoo][0]? = some vendorFoo ∧
    (vendorFoo.ImportPath = "foo" ∨
      ∃ info, (goListVendored "/go" (listArgs ["foo"])).records[0]? = some info ∧
        info.failed = true ∧
        (goListVendored "/go" (vendorArgs "foo")).records.head? = some vendorFoo ∧
        vendorFoo.failed = false) :=
  ⟨by decide, by decide, by decide,
    importPath_eq_requested_unless_vendor goListVendored "/go" ["foo"] [vendorFoo] 0 "foo"
      vendorFoo (by decide) (by decide) (by decide)⟩


/-- C7: when the primary record of a requested path is a failure (`Error` set
and `Name` empty) and the vendor retry decodes a record that is not, the
record returned at that position is the vendor record. -/
theorem vendor_record_returned
    (goList : String → List String → CmdOutput) (gopath : String) (pkgs : List String)
    (res : List PkgInfo) (i : Nat) (p : String) (info v : PkgInfo)
    (hok : getTopLevelPackagesInfo goList gopath pkgs = .ok res)
    (hp : pkgs[i]? = some p)
    (hinfo : (goList gopath (listArgs pkgs)).records[i]? = some info)
    (hfail : info.failed = true)
    (hv : (goList gopath (vendorArgs p)).records.head? = some v)
    (hvok : v.failed = false) :
    res[i]? = some v := by
  unfold getTopLevelPackagesInfo at hok
  by_cases hf : (goList gopath (listArgs pkgs)).failed = true
  · simp [hf] at hok
  · simp only [hf, Bool.false_eq_true, if_false] at hok
    obtain ⟨outs, hres, _, hall⟩ := resolveLoop_ok goList gopath pkgs _ [] res hok
    obtain ⟨info1, r1, hinfo1, hr1, hpi, hcase⟩ := hall i p hp
    simp only [List.nil_append] at hres
    subst hres
    rw [hinfo, Option.some.injEq] at hinfo1
    subst hinfo1
    simp only [hfail, if_true] at hcase
    unfold tryVendor at hcase
    rw [← hpi] at hcase
    cases hrec : (goList gopath (vendorArgs p)).records with
    | nil => simp [hrec] at hv
    | cons w ws =>
      simp only [hrec, List.head?_cons, Option.some.injEq] at hv
      subst hv
      by_cases hvf : (goList gopath (vendorArgs p)).failed = true
      · simp [hvf] at hcase
      · simp only [hvf, Bool.false_eq_true, if_false, hrec, hvok, Bool.not_false, if_true,
          Except.ok.injEq] at hcase
        rw [hr1, hcase]

/-- Witness of C7 on the sample tool chain with a vendored package. -/
theorem vendor_record_returned_witness :
    getTopLevelPackagesInfo goListVendored "/go" ["foo"] = .ok [vendorFoo] ∧
    ["foo"][0]? = some "foo" ∧
    (goListVendored "/go" (listArgs ["foo"])).records[0]? = some primaryFoo ∧
    primaryFoo.failed = true ∧
    (goListVendored "/go" (vendorArgs "foo")).records.head? = some vendorFoo ∧
    vendorFoo.failed = false ∧
    [vendorFoo][0]? = some vendorFoo :=
  ⟨by decide, by decide, by decide, by decide, by decide, by decide,
    vendor_record_returned goListVendored "/go" ["foo"] [vendorFoo] 0 "foo" primaryFoo
      vendorFoo (by decide) (by decide) (by decide) (by decide) (by decide) (by decide)⟩

/-- C8: when the primary record of a requested path is a failure and the
vendor retry decodes a failure too, the record returned at that position is
the primary record with `Name` set to the requested import path; its `Error`
is the primary one. -/
theorem placeholder_record_returned
    (goList : String → List String → CmdOutput) (gopath : String) (pkgs : List String)
    (res : List PkgInfo) (i : Nat) (p : String) (info v : PkgInfo)
    (hok : getTopLevelPackagesInfo goList gopath pkgs = .ok res)
    (hp : pkgs[i]? = some p)
    (hinfo : (goList gopath (listArgs pkgs)).records[i]? = some info)
    (hfail : info.failed = true)
    (hv : (goList gopath (vendorArgs p)).records.head? = some v)
    (hvfail : v.failed = true) :
    res[i]? = some { info with Name := p } ∧
      ({ info with Name := p } : PkgInfo).Error = info.Error ∧ info.Error ≠ none := by
  unfold getTopLevelPackagesInfo at hok
  by_cases hf : (goList gopath (listArgs pkgs)).failed = true
  · simp [hf] at hok
  · simp only [hf, Bool.false_eq_true, if_false] at hok
    obtain ⟨outs, hres, _, hall⟩ := resolveLoop_ok goList gopath pkgs _ [] res hok
    obtain ⟨info1, r1, hinfo1, hr1, hpi, hcase⟩ := hall i p hp
    simp only [List.nil_append] at hres
    subst hres
    rw [hinfo, Option.some.injEq] at hinfo1
    subst hinfo1
    refine ⟨?_, rfl, ?_⟩
    · simp only [hfail, if_true] at hcase
      unfold tryVendor at hcase
      rw [← hpi] at hcase
      cases hrec : (goList gopath (vendorArgs p)).records with
      | nil => simp [hrec] at hv
      | cons w ws =>
        simp only [hrec, List.head?_cons, Option.some.injEq] at hv
        subst hv
        by_cases hvf : (goList gopath (vendorArgs p)).failed = true
        · simp [hvf] at hcase
        · simp only [hvf, Bool.false_eq_true, if_false, hrec, hvfail, Bool.not_true,
            Except.ok.injEq] at hcase
          rw [hr1, ← hcase, ← hpi]
    · intro hnone
      simp [PkgInfo.failed, hnone] at hfail

/-- Witness of C8 on the sample tool chain to which `foo` is unknown. -/
theorem placeholder_record_returned_witness :
    getTopLevelPackagesInfo goListUnknown "/go" ["foo"]
      = .ok [{ primaryFoo with Name := "foo" }] ∧
    ["foo"][0]? = some "foo" ∧
    (goListUnknown "/go" (listArgs ["foo"])).records[0]? = some primaryFoo ∧
    primaryFoo.failed = true ∧
    (goListUnknown "/go" (vendorArgs "foo")).records.head? = some primaryFoo ∧
    ([{ primaryFoo with Name := "foo" }][0]? = some { primaryFoo with Name := "foo" } ∧
      ({ primaryFoo with Name := "foo" } : PkgInfo).Error = primaryFoo.Error ∧
      primaryFoo.Error ≠ none) :=
  ⟨by decide, by decide, by decide, by decide, by decide,
    placeholder_record_returned goListUnknown "/go" ["foo"]
      [{ primaryFoo with Name := "foo" }] 0 "foo" primaryFoo primaryFoo
      (by decide) (by decide) (by decide) (by decide) (by decide) (by decide)⟩

/-- C9, as stated, fails: the primary query runs and decodes one matching
record, the vendor retry of the failing package cannot be run, and the batch
returns an error instead of a package list. -/
theorem vendor_retry_failure_aborts_batch :
    (goListVendorDown "/go" (listArgs ["foo"])).failed = false ∧
    (goListVendorDown "/go" (listArgs ["foo"])).records.map PkgInfo.ImportPath = ["foo"] ∧
    getTopLevelPackagesInfo goListVendorDown "/go" ["foo"]
      = .error (PkgsError.goFailed (vendorArgs "foo") "exit status 1") := by
  decide

/-- C9, amended: when the primary query runs and decodes one record per
requested path with matching `ImportPath`, `getTopLevelPackagesInfo` returns a
package list exactly when, for every failing record, the vendor retry runs and
its output decodes to a record; whether that record is a failure does not
matter. -/
theorem batch_ok_iff_vendor_retries_decode
    (goList : String → List String → CmdOutput) (gopath : String) (pkgs : List String)
    (hrun : (goList gopath (listArgs pkgs)).failed = false)
    (hrec : (goList gopath (listArgs pkgs)).records.map PkgInfo.ImportPath = pkgs) :
    (∃ res, getTopLevelPackagesInfo goList gopath pkgs = .ok res) ↔
      ∀ info ∈ (goList gopath (listArgs pkgs)).records, info.failed = true →
        (goList gopath (vendorArgs info.ImportPath)).failed = false ∧
        (goList gopath (vendorArgs info.ImportPath)).records ≠ [] := by
  unfold getTopLevelPackagesInfo
  simp only [hrun, Bool.false_eq_true, if_false]
  have h := resolveLoop_ok_iff goList gopath (goList gopath (listArgs pkgs)).records []
  rw [hrec] at h
  exact h

/-- Witness of amended C9 on the sample tool chain to which `foo` is unknown:
the retry decodes a failure and the batch still returns a list. -/
theorem batch_ok_iff_vendor_retries_decode_witness :
    (goListUnknown "/go" (listArgs ["foo"])).failed = false ∧
    (goListUnknown "/go" (listArgs ["foo"])).records.map PkgInfo.ImportPath = ["foo"] ∧
    ((∃ res, getTopLevelPackagesInfo goListUnknown "/go" ["foo"] = .ok res) ↔
      ∀ info ∈ (goListUnknown "/go" (listArgs ["foo"])).records, info.failed = true →
        (goListUnknown "/go" (vendorArgs info.ImportPath)).failed = false ∧
        (goListUnknown "/go" (vendorArgs info.ImportPath)).records ≠ []) :=
  ⟨by decide, by decide,
    batch_ok_iff_vendor_retries_decode goListUnknown "/go" ["foo"] (by decide) (by decide)⟩

/-! ## Theorems about the license loop -/

theorem cacheLookup_cacheStore (matched : List (String × MatchResult)) (k k1 : String)
    (m : MatchResult) :
    cacheLookup (cacheStore matched k m) k1 =
      if k = k1 then some m else cacheLookup matched k1 := by
  unfold cacheLookup cacheStore
  by_cases h : k = k1
  · simp [h]
  · simp [List.find?_cons, h]

theorem readsOf_append (a b : List Call) (fp : String) :
    readsOf (a ++ b) fp = readsOf a fp + readsOf b fp := by
  simp [readsOf, List.countP_append]

theorem matchesOf_append (a b : List Call) (fp : String) :
    matchesOf (a ++ b) fp = matchesOf a fp + matchesOf b fp := by
  simp [matchesOf, List.countP_append]

theorem readsOf_read (k fp : String) :
    readsOf [Call.readFile k] fp = if k = fp then 1 else 0 := by
  by_cases h : k = fp <;> simp [readsOf, List.countP_cons, h]

theorem readsOf_read_match (k d fp : String) :
    readsOf [Call.readFile k, Call.matchTemplates k d] fp = if k = fp then 1 else 0 := by
  by_cases h : k = fp <;> simp [readsOf, List.countP_cons, h]

theorem matchesOf_read (k fp : String) : matchesOf [Call.readFile k] fp = 0 := by
  simp [matchesOf, List.countP_cons]

theorem matchesOf_read_match (k d fp : String) :
    matchesOf [Call.readFile k, Call.matchTemplates k d] fp = if k = fp then 1 else 0 := by
  by_cases h : k = fp <;> simp [matchesOf, List.countP_cons, h]

theorem licensesLoop_calls {τ : Type} (h : Helpers τ) (templates : τ)
    (stdSet : String → Bool) :
    ∀ (infos : List PkgInfo) (matched : List (String × MatchResult))
      (licenses : List License) (calls : List Call),
      CacheInv matched calls →
      ∀ fp, readsOf (licensesLoop h templates stdSet infos matched licenses calls).2 fp ≤ 1 ∧
        matchesOf (licensesLoop h templates stdSet infos matched licenses calls).2 fp ≤ 1 := by
  intro infos
  induction infos with
  | nil =>
    intro matched licenses calls hinv fp
    simp only [licensesLoop]
    exact ⟨(hinv fp).1, (hinv fp).2.1⟩
  | cons info infos ih =>
    intro matched licenses calls hinv fp
    simp only [licensesLoop]
    cases hE : info.Error with
    | some e => exact ih _ _ _ hinv fp
    | none =>
      simp only []
      by_cases hstd : stdSet info.ImportPath = true
      · simp only [hstd, if_true]; exact ih _ _ _ hinv fp
      · simp only [hstd, Bool.false_eq_true, if_false]
        cases hfl : h.findLicense info with
        | error msg => exact ⟨(hinv fp).1, (hinv fp).2.1⟩
        | ok path =>
          simp only []
          by_cases hpath : path = ""
          · simp only [hpath, ne_eq, not_true_eq_false, if_false]; exact ih _ _ _ hinv fp
          · simp only [hpath, ne_eq, not_false_eq_true, if_true]
            cases hc : cacheLookup matched (filepathJoin [info.Root, "src", path]) with
            | some m => exact ih _ _ _ hinv fp
            | none =>
              simp only []
              have h0 := (hinv (filepathJoin [info.Root, "src", path])).2.2 hc
              cases hrd : h.readFile (filepathJoin [info.Root, "src", path]) with
              | error msg =>
                simp only []
                have h1 := hinv fp
                rw [readsOf_append, matchesOf_append, readsOf_read, matchesOf_read]
                by_cases hfp : filepathJoin [info.Root, "src", path] = fp
                · rw [if_pos hfp]; rw [hfp] at h0; omega
                · rw [if_neg hfp]; omega
              | ok data =>
                simp only []
                apply ih
                intro fq
                rw [cacheLookup_cacheStore]
                have h1 := hinv fq
                rw [readsOf_append, matchesOf_append, readsOf_read_match,
                  matchesOf_read_match]
                by_cases hfq : filepathJoin [info.Root, "src", path] = fq
                · simp only [if_pos hfq]; rw [hfq] at h0
                  refine ⟨by omega, by omega, ?_⟩
                  intro hcontra; simp at hcontra
                · simp only [if_neg hfq]
                  exact ⟨by omega, by omega, fun hn => by have := h1.2.2 hn; omega⟩

theorem cacheInv_empty : CacheInv [] [] := by
  intro fp
  simp [readsOf, matchesOf, cacheLookup]

/-- C2, as stated, fails: `fmt` is in the standard set, its record carries a
resolution error, and the run returns a record for it. -/
theorem std_package_with_error_is_reported :
    sampleHelpers.listStandardPackages "/go" = .ok ["fmt"] ∧
    brokenFmt.ImportPath = "fmt" ∧
    getTopLevelPackagesInfo goListBrokenFmt "/go" ["fmt"] = .ok [brokenFmt] ∧
    (listTopLevelLicenses sampleHelpers goListBrokenFmt id "proj" fmtTree "/go" []).1
      = .ok [{ Package := "fmt", Err := "build constraints exclude all Go files" }] := by
  decide

/-- Two packages that share a license file: the file is read and scored for
the first of them only. -/
theorem shared_license_file_example :
    (licensesLoop sampleHelpers () (fun _ => false) subPackages [] [] []).2 =
      [Call.readFile "/go/src/LICENSE", Call.matchTemplates "/go/src/LICENSE" "text"] := by
  decide

/-- C10: within one run of `listTopLevelLicenses`, whatever the list of
resolved packages, a license file path is passed to `ioutil.ReadFile` at most
once and its bytes are passed to `matchTemplates` at most once. -/
theorem license_file_read_and_scored_at_most_once {τ : Type} (h : Helpers τ)
    (fpath : String) :
    (∀ (templates : τ) (stdSet : String → Bool) (infos : List PkgInfo),
      readsOf (licensesLoop h templates stdSet infos [] [] []).2 fpath ≤ 1 ∧
      matchesOf (licensesLoop h templates stdSet infos [] [] []).2 fpath ≤ 1) ∧
    (∀ (goList : String → List String → CmdOutput) (keysOrder : ImportSet → List String)
        (arg1 : String) (root : FsNode) (gopath : String) (pkgs : List String),
      readsOf (listTopLevelLicenses h goList keysOrder arg1 root gopath pkgs).2 fpath ≤ 1 ∧
      matchesOf (listTopLevelLicenses h goList keysOrder arg1 root gopath pkgs).2 fpath ≤ 1) := by
  have hloop : ∀ (templates : τ) (stdSet : String → Bool) (infos : List PkgInfo),
      readsOf (licensesLoop h templates stdSet infos [] [] []).2 fpath ≤ 1 ∧
      matchesOf (licensesLoop h templates stdSet infos [] [] []).2 fpath ≤ 1 :=
    fun templates stdSet infos =>
      licensesLoop_calls h templates stdSet infos [] [] [] cacheInv_empty fpath
  refine ⟨hloop, ?_⟩
  intro goList keysOrder arg1 root gopath pkgs
  unfold listTopLevelLicenses
  cases h.loadTemplates with
  | error msg => simp [readsOf, matchesOf]
  | ok templates =>
    simp only []
    cases listAllImports keysOrder arg1 root with
    | error e => simp [readsOf, matchesOf]
    | ok deps =>
      simp only []
      cases h.listStandardPackages gopath with
      | error msg => simp [readsOf, matchesOf]
      | ok std =>
        simp only []
        cases getTopLevelPackagesInfo goList gopath deps with
        | error e => simp [readsOf, matchesOf]
        | ok infos => exact hloop _ _ _

/-! ## Further theorems about the import scanner -/

theorem mapInsert_nodup (imports : ImportSet) (str : String) (h : imports.Nodup) :
    (mapInsert imports str).Nodup := by
  unfold mapInsert
  by_cases hm : str ∈ imports
  · simp only [hm, if_true]; exact h
  · simp only [hm, if_false]
    exact List.nodup_append.mpr ⟨h, List.nodup_singleton _, by
      intro a ha hb
      simp only [List.mem_singleton] at hb
      exact hm (hb ▸ ha)⟩

theorem foldl_mapInsert_nodup (strs : List String) :
    ∀ imports : ImportSet, imports.Nodup → (strs.foldl mapInsert imports).Nodup := by
  induction strs with
  | nil => intro imports h; exact h
  | cons s strs ih =>
    intro imports h
    exact ih _ (mapInsert_nodup imports s h)

theorem mem_mapInsert (imports : ImportSet) (str x : String) :
    x ∈ mapInsert imports str ↔ x ∈ imports ∨ x = str := by
  unfold mapInsert
  by_cases hm : str ∈ imports
  · simp only [hm, if_true]
    constructor
    · intro h; exact Or.inl h
    · rintro (h | h)
      · exact h
      · exact h ▸ hm
  · simp [hm]

theorem mem_foldl_mapInsert (strs : List String) :
    ∀ (imports : ImportSet) (x : String),
      x ∈ strs.foldl mapInsert imports ↔ x ∈ imports ∨ x ∈ strs := by
  induction strs with
  | nil => intro imports x; simp
  | cons s strs ih =>
    intro imports x
    simp only [List.foldl_cons, ih, mem_mapInsert, List.mem_cons]
    tauto

theorem scanImportLine_nodup (fPath : String) (line : List Char) (r r2 : Reader)
    (imports imports1 : ImportSet) (hn : imports.Nodup)
    (h : scanImportLine fPath line r imports = .ok (imports1, r2)) : imports1.Nodup := by
  unfold scanImportLine at h
  split at h
  · split at h
    · split at h
      · simp at h
      · simp only [Except.ok.injEq, Prod.mk.injEq] at h
        rw [← h.1]; exact foldl_mapInsert_nodup _ _ hn
    · simp only [Except.ok.injEq, Prod.mk.injEq] at h
      rw [← h.1]
      unfold singleImport
      simp only []
      split
      · exact mapInsert_nodup _ _ hn
      · exact hn
  · simp only [Except.ok.injEq, Prod.mk.injEq] at h
    rw [← h.1]; exact hn

theorem readLoop_nodup (fPath : String) (fuel : Nat) :
    ∀ (r : Reader) (imports res : ImportSet), imports.Nodup →
      readLoop fPath fuel r imports = .ok res → res.Nodup := by
  induction fuel with
  | zero =>
    intro r imports res hn h
    simp only [readLoop, Except.ok.injEq] at h
    exact h ▸ hn
  | succ n ih =>
    intro r imports res hn h
    simp only [readLoop] at h
    rcases hrs : r.ReadString with ⟨line, err, r1⟩
    rw [hrs] at h
    cases err with
    | some e =>
      cases e with
      | eof => simp only [Except.ok.injEq] at h; exact h ▸ hn
      | other => simp at h
    | none =>
      simp only [] at h
      cases hsc : scanImportLine fPath line r1 imports with
      | error e => simp [hsc] at h
      | ok p =>
        obtain ⟨imports1, r2⟩ := p
        have hn1 := scanImportLine_nodup fPath line r1 r2 imports imports1 hn hsc
        simp only [hsc] at h
        split at h
        · simp only [Except.ok.injEq] at h; exact h ▸ hn1
        · exact ih r2 imports1 res hn1 h

theorem scanFiles_nodup :
    ∀ (files : List (String × FsNode)) (imports res : ImportSet), imports.Nodup →
      scanFiles files imports = .ok res → res.Nodup := by
  intro files
  induction files with
  | nil =>
    intro imports res hn h
    simp only [scanFiles, Except.ok.injEq] at h
    exact h ▸ hn
  | cons f files ih =>
    intro imports res hn h
    obtain ⟨fPath, node⟩ := f
    simp only [scanFiles] at h
    split at h
    · exact ih imports res hn h
    · split at h
      · simp at h
      · split at h
        · simp at h
        · rename_i imports1 hrl
          exact ih imports1 res (readLoop_nodup fPath _ _ imports imports1 hn hrl) h

/-- C17: the list returned by `listAllImports` contains no string twice,
whatever the source tree and in whatever order the keys of the map are
listed. -/
theorem listAllImports_nodup (keysOrder : ImportSet → List String) (fPath : String)
    (root : FsNode) (deps : List String)
    (hperm : ∀ m, (keysOrder m).Perm m)
    (hok : listAllImports keysOrder fPath root = .ok deps) : deps.Nodup := by
  unfold listAllImports at hok
  simp only [] at hok
  split at hok
  · simp at hok
  · rename_i imports hs
    simp only [Except.ok.injEq] at hok
    rw [← hok]
    exact (hperm imports).nodup_iff.mpr (scanFiles_nodup _ [] imports List.nodup_nil hs)

/-- Witness of C17: `lib/x` is referenced three times and returned once. -/
theorem listAllImports_nodup_witness :
    (∀ m : ImportSet, (List.reverse m).Perm m) ∧
    listAllImports List.reverse "proj" repeatedTree = .ok ["lib/y", "lib/x"] ∧
    ["lib/y", "lib/x"].Nodup :=
  ⟨fun m => List.reverse_perm m, by decide,
    listAllImports_nodup List.reverse "proj" repeatedTree ["lib/y", "lib/x"]
      (fun m => List.reverse_perm m) (by decide)⟩

theorem findString_no_quote : ∀ (l : List Char), '\x22' ∉ l → findString l = []
  | [], _ => rfl
  | c :: cs, h => by
    have hc : c ≠ '\x22' := fun e => h (by simp [e])
    have hcs : '\x22' ∉ cs := fun e => h (by simp [e])
    simp only [findString, hc, if_false]
    exact findString_no_quote cs hcs

theorem span_not_quote (p rest : List Char) (hp : '\x22' ∉ p) :
    (p ++ '\x22' :: rest).span (fun d => d != '\x22') = (p, '\x22' :: rest) := by
  induction p with
  | nil => simp [List.span, List.span.loop]
  | cons c cs ih =>
    have hc : c ≠ '\x22' := fun e => hp (by simp [e])
    have hcs : '\x22' ∉ cs := fun e => hp (by simp [e])
    have := ih hcs
    rw [List.span_eq_take_drop] at this ⊢
    simp only [Prod.mk.injEq] at this
    simp [List.takeWhile_cons, List.dropWhile_cons, hc, this.1, this.2]

theorem findString_quoted (pre p rest : List Char) (hpre : '\x22' ∉ pre) (hne : p ≠ [])
    (hp : '\x22' ∉ p) :
    findString (pre ++ '\x22' :: (p ++ '\x22' :: rest)) = '\x22' :: (p ++ ['\x22']) := by
  induction pre with
  | nil =>
    simp only [List.nil_append, findString, if_true, span_not_quote p rest hp]
    cases p with
    | nil => exact absurd rfl hne
    | cons c cs => simp
  | cons c cs ih =>
    have hc : c ≠ '\x22' := fun e => hpre (by simp [e])
    have hcs : '\x22' ∉ cs := fun e => hpre (by simp [e])
    simp only [List.cons_append, findString, hc, if_false]
    exact ih hcs

theorem dropWhile_quote_append (q t : List Char) (hne : q ≠ []) (hq : '\x22' ∉ q) :
    (q ++ t).dropWhile (fun c => ['\x22'].contains c) = q ++ t := by
  cases q with
  | nil => exact absurd rfl hne
  | cons c cs =>
    have hc : c ≠ '\x22' := fun e => hq (by simp [e])
    simp [List.dropWhile_cons, hc]

theorem stringsTrim_quoted (p : List Char) (hne : p ≠ []) (hp : '\x22' ∉ p) :
    stringsTrim ('\x22' :: (p ++ ['\x22'])) ['\x22'] = p := by
  have h1 : ('\x22' :: (p ++ ['\x22'])).dropWhile (fun c => ['\x22'].contains c)
      = p ++ ['\x22'] := by
    rw [List.dropWhile_cons]
    simp only [List.contains_cons, beq_self_eq_true, Bool.true_or, if_true]
    exact dropWhile_quote_append p ['\x22'] hne hp
  have h2 : ('\x22' :: p.reverse).dropWhile (fun c => ['\x22'].contains c) = p.reverse := by
    rw [List.dropWhile_cons]
    simp only [List.contains_cons, beq_self_eq_true, Bool.true_or, if_true]
    have := dropWhile_quote_append p.reverse [] (by simpa using hne) (by simpa using hp)
    simpa using this
  unfold stringsTrim
  rw [h1]
  simp only [List.reverse_append, List.reverse_cons, List.reverse_nil, List.nil_append,
    List.singleton_append]
  rw [h2, List.reverse_reverse]

theorem BlockLine.isLine (b : BlockLine) (hb : b.WellFormed) : IsLine b.text := by
  obtain ⟨hq, hn, hlit⟩ := hb
  unfold BlockLine.text
  cases hl : b.lit with
  | none => exact ⟨b.pre, rfl, hn⟩
  | some q =>
    obtain ⟨p, post⟩ := q
    obtain ⟨_, _, hpn, hpostn⟩ := hlit p post hl
    refine ⟨b.pre ++ '\x22' :: (p ++ '\x22' :: post), by simp [quotedLine], ?_⟩
    intro h
    simp only [List.mem_append, List.mem_cons] at h
    rcases h with h | h | h | h | h
    · exact hn h
    · exact absurd h (by decide)
    · exact hpn h
    · exact absurd h (by decide)
    · exact hpostn h

theorem BlockLine.imports_of_line (b : BlockLine) (hb : b.WellFormed) (acc : List String) :
    (if findString b.text ≠ [] then
        acc ++ [String.mk (stringsTrim (findString b.text) ['\x22'])]
      else acc) = acc ++ b.first.toList := by
  obtain ⟨hq, hn, hlit⟩ := hb
  unfold BlockLine.text BlockLine.first
  cases hl : b.lit with
  | none =>
    have : findString (b.pre ++ ['\n']) = [] := by
      apply findString_no_quote
      intro h
      rcases List.mem_append.mp h with h | h
      · exact hq h
      · exact absurd h (by decide)
    simp [this]
  | some q =>
    obtain ⟨p, post⟩ := q
    obtain ⟨hne, hpq, _, _⟩ := hlit p post hl
    have hf : findString (quotedLine b.pre p post) = '\x22' :: (p ++ ['\x22']) :=
      findString_quoted b.pre p (post ++ ['\n']) hq hne hpq
    simp [hf, stringsTrim_quoted p hne hpq]

theorem parseImportBlockLoop_lines (last : BlockLine) (hlast : last.WellFormed)
    (hclose : stringsContains last.text [')'] = true) (rest : List Char) (f : Bool) :
    ∀ (body : List BlockLine) (acc : List String) (fuel : Nat),
      (∀ b ∈ body, b.WellFormed ∧ stringsContains b.text [')'] = false) →
      ((body.map BlockLine.text).flatten ++ last.text).length ≤ fuel →
      parseImportBlockLoop fuel ⟨(body.map BlockLine.text).flatten ++ (last.text ++ rest), f⟩ acc
        = (.ok (acc ++ (body ++ [last]).filterMap BlockLine.first), ⟨rest, f⟩) := by
  intro body
  induction body with
  | nil =>
    intro acc fuel _ hfuel
    have hl := last.isLine hlast
    have hpos := hl.length_pos
    simp only [List.map_nil, List.flatten_nil, List.nil_append] at hfuel ⊢
    obtain ⟨n, rfl⟩ : ∃ n, fuel = n + 1 := ⟨fuel - 1, by omega⟩
    simp only [parseImportBlockLoop, readString_line last.text rest f hl, hclose, if_true,
      last.imports_of_line hlast acc]
    cases hfirst : last.first <;> simp [hfirst]
  | cons b body ih =>
    intro acc fuel hbody hfuel
    have hb := hbody b (List.mem_cons_self _ _)
    have hl := b.isLine hb.1
    have hpos := hl.length_pos
    simp only [List.map_cons, List.flatten_cons, List.append_assoc, List.length_append]
      at hfuel ⊢
    obtain ⟨n, rfl⟩ : ∃ n, fuel = n + 1 := ⟨fuel - 1, by omega⟩
    simp only [parseImportBlockLoop, readString_line b.text _ f hl, hb.2,
      Bool.false_eq_true, if_false, b.imports_of_line hb.1 acc]
    rw [ih (acc ++ b.first.toList) n (fun c hc => hbody c (List.mem_cons_of_mem _ hc))
      (by simp only [List.length_append]; omega)]
    cases hfirst : b.first <;> simp [hfirst]

theorem parseImportBlock_lines (body : List BlockLine) (last : BlockLine)
    (rest : List Char) (f : Bool)
    (hbody : ∀ b ∈ body, b.WellFormed ∧ stringsContains b.text [')'] = false)
    (hlast : last.WellFormed) (hclose : stringsContains last.text [')'] = true) :
    parseImportBlock ⟨(body.map BlockLine.text).flatten ++ (last.text ++ rest), f⟩
      = (.ok ((body ++ [last]).filterMap BlockLine.first), ⟨rest, f⟩) := by
  unfold parseImportBlock
  have h := parseImportBlockLoop_lines last hlast hclose rest f body []
    (((body.map BlockLine.text).flatten ++ (last.text ++ rest)).length + 1) hbody
    (by simp only [List.length_append]; omega)
  simpa using h

/-- C20, as stated, fails: the line after the opening line holds the two
quoted strings `lib/a` and `lib/b`, and `parseImportBlock` returns `lib/a`
only; and on a line that holds an empty quoted string and then the quoted
string `x`, it returns the blank between the two and not `x`. -/
theorem second_literal_of_line_is_dropped :
    (parseImportBlock ⟨twoOnOneLine, false⟩).1 = .ok ["lib/a"] ∧
    (parseImportBlock ⟨emptyThenQuoted, false⟩).1 = .ok [" "] := by
  decide

/-- C20, amended: take the lines that follow the opening line of a grouped
block, up to and including the first line with a closing parenthesis, each
ended by a newline and each either without a double quote or such that its
first double quote opens a quoted string that is not empty and is closed on
the line. Then `parseImportBlock` returns the first quoted string of each
line that has one, in the order of the lines, and nothing else, and leaves
the reader just after the closing line; the text after the first quoted
string of a line, further quoted strings included, adds nothing. -/
theorem parseImportBlock_first_literal_per_line (body : List BlockLine) (last : BlockLine)
    (rest : List Char) (f : Bool)
    (hbody : ∀ b ∈ body, b.WellFormed ∧ stringsContains b.text [')'] = false)
    (hlast : last.WellFormed) (hclose : stringsContains last.text [')'] = true) :
    parseImportBlock ⟨(body.map BlockLine.text).flatten ++ (last.text ++ rest), f⟩
      = (.ok ((body ++ [last]).filterMap BlockLine.first), ⟨rest, f⟩) :=
  parseImportBlock_lines body last rest f hbody hlast hclose

/-- Witness of amended C20: the block of `twoOnOneLine`, whose first line
holds two quoted strings. -/
theorem parseImportBlock_first_literal_per_line_witness :
    (∀ b ∈ [sampleBodyLine], b.WellFormed ∧ stringsContains b.text [')'] = false) ∧
    sampleCloseLine.WellFormed ∧
    stringsContains sampleCloseLine.text [')'] = true ∧
    ([sampleBodyLine].map BlockLine.text).flatten ++ (sampleCloseLine.text ++ [])
      = twoOnOneLine ∧
    parseImportBlock
        ⟨([sampleBodyLine].map BlockLine.text).flatten ++ (sampleCloseLine.text ++ []), false⟩
      = (.ok (([sampleBodyLine] ++ [sampleCloseLine]).filterMap BlockLine.first),
          ⟨[], false⟩) :=
  have h1 : ∀ b ∈ [sampleBodyLine],
      b.WellFormed ∧ stringsContains b.text [')'] = false := by
    intro b hb
    rw [List.mem_singleton] at hb
    subst hb
    refine ⟨⟨by decide, by decide, ?_⟩, by decide⟩
    intro p post hlit
    simp only [sampleBodyLine, Option.some.injEq, Prod.mk.injEq] at hlit
    obtain ⟨rfl, rfl⟩ := hlit
    exact ⟨by decide, by decide, by decide, by decide⟩
  have h2 : sampleCloseLine.WellFormed :=
    ⟨by decide, by decide, fun p post hlit => by simp [sampleCloseLine] at hlit⟩
  ⟨h1, h2, by decide, by decide,
    parseImportBlock_first_literal_per_line [sampleBodyLine] sampleCloseLine [] false
      h1 h2 (by decide)⟩

theorem stringsContains_singleton (c : Char) :
    ∀ l : List Char, stringsContains l [c] = true ↔ c ∈ l
  | [] => by simp [stringsContains]
  | x :: xs => by
    have ih := stringsContains_singleton c xs
    simp only [stringsContains, List.isPrefixOf, Bool.or_eq_true, Bool.and_eq_true, ih,
      List.mem_cons, beq_iff_eq]
    simp

theorem stringsContains_singleton_false (c : Char) (l : List Char) (h : c ∉ l) :
    stringsContains l [c] = false := by
  cases hc : stringsContains l [c] with
  | false => rfl
  | true => exact absurd ((stringsContains_singleton c l).mp hc) h

theorem readLoop_succ (fPath : String) (fuel : Nat) (r : Reader) (imports : ImportSet) :
    readLoop fPath (fuel + 1) r imports =
      match r.ReadString with
      | (_, some ReadErr.eof, _) => .ok imports
      | (_, some ReadErr.other, _) => .error (ImportsError.readLine fPath)
      | (line, none, r1) =>
        match scanImportLine fPath line r1 imports with
        | .error e => .error e
        | .ok (imports1, r2) =>
          if stringsContains line funcToken then .ok imports1
          else readLoop fPath fuel r2 imports1 := rfl

theorem readLoop_at_end (fPath : String) (fuel : Nat) (imports : ImportSet) :
    readLoop fPath (fuel + 1) ⟨[], false⟩ imports = .ok imports := by
  simp [readLoop, Reader.ReadString, splitLine]

theorem filterMap_first_pathLines (ps : List String) :
    ((ps.map (fun p => (⟨[' '], some (p.toList, [])⟩ : BlockLine))) ++
        [(⟨[')'], none⟩ : BlockLine)]).filterMap BlockLine.first = ps := by
  induction ps with
  | nil => simp [BlockLine.first]
  | cons p ps ih =>
    simp only [List.map_cons, List.cons_append, List.filterMap_cons]
    simp only [BlockLine.first, Option.map_some', String.toList] at ih ⊢
    rw [ih]

/-- C12: a file that is one grouped block with one line per path yields
exactly the set of these paths: each of them is returned, nothing else is,
and none is returned twice. -/
theorem grouped_block_yields_its_paths (fPath name : String) (ps : List String)
    (hpath : fPath ≠ "")
    (hps : ∀ p ∈ ps, p.toList ≠ [] ∧ '\x22' ∉ p.toList ∧ '(' ∉ p.toList ∧
      ')' ∉ p.toList ∧ '\n' ∉ p.toList) :
    ∃ m, scanFiles [(fPath, FsNode.file name true (String.mk (groupedBlockText ps)) false)] []
        = .ok m ∧ m.Nodup ∧ ∀ x, x ∈ m ↔ x ∈ ps := by
  have hbody : ∀ b ∈ ps.map (fun p => (⟨[' '], some (p.toList, [])⟩ : BlockLine)),
      b.WellFormed ∧ stringsContains b.text [')'] = false := by
    intro b hb
    obtain ⟨p, hp, rfl⟩ := List.mem_map.mp hb
    obtain ⟨hne, hq, _, hpar, hnl⟩ := hps p hp
    refine ⟨⟨by simp, by simp, ?_⟩, ?_⟩
    · intro q post hlit
      simp only [Option.some.injEq, Prod.mk.injEq] at hlit
      obtain ⟨rfl, rfl⟩ := hlit
      exact ⟨hne, hq, hnl, by simp⟩
    · apply stringsContains_singleton_false
      simp only [BlockLine.text, quotedLine, List.mem_append, List.mem_cons, not_or]
      simp only [List.mem_singleton, List.mem_nil_iff, List.nil_append, List.mem_cons,
        not_or, not_false_eq_true, and_true]
      exact ⟨by decide, by decide, hpar, by decide, by decide⟩
  have hlast : (⟨[')'], none⟩ : BlockLine).WellFormed :=
    ⟨by decide, by decide, fun p post hlit => by simp at hlit⟩
  have hblock := parseImportBlock_lines
    (ps.map (fun p => (⟨[' '], some (p.toList, [])⟩ : BlockLine))) ⟨[')'], none⟩ [] false
    hbody hlast (by decide)
  rw [filterMap_first_pathLines] at hblock
  have htext : ((ps.map (fun p => (⟨[' '], some (p.toList, [])⟩ : BlockLine))).map
      BlockLine.text).flatten ++ ((⟨[')'], none⟩ : BlockLine).text ++ [])
      = (ps.map pathLine).flatten ++ groupCloseLine := by
    simp only [List.map_map, List.append_nil]
    rfl
  rw [htext] at hblock
  have hopen : IsLine groupOpenLine := ⟨"import (".toList, by decide, by decide⟩
  refine ⟨ps.foldl mapInsert [], ?_, foldl_mapInsert_nodup ps [] List.nodup_nil, ?_⟩
  · obtain ⟨k, hk⟩ : ∃ k, (groupedBlockText ps).length + 1 = (k + 1) + 1 := by
      have := hopen.length_pos
      refine ⟨(groupedBlockText ps).length - 1, ?_⟩
      simp only [groupedBlockText, List.length_append]
      omega
    simp only [scanFiles, hpath, if_false, osOpen, String.toList]
    rw [hk, readLoop_succ]
    simp only [groupedBlockText, readString_line groupOpenLine _ false hopen,
      scanImportLine, show stringsContains groupOpenLine importToken = true by decide,
      show stringsContains groupOpenLine ['('] = true by decide, if_true, hblock,
      show stringsContains groupOpenLine funcToken = false by decide,
      Bool.false_eq_true, if_false, readLoop_at_end]
  · intro x
    simp [mem_foldl_mapInsert]

/-- Witness of C12 on the example of the specification, the paths `a` and
`b`. -/
theorem grouped_block_yields_its_paths_witness :
    "proj/a.go" ≠ "" ∧
    (∀ p ∈ ["a", "b"], p.toList ≠ [] ∧ '\x22' ∉ p.toList ∧ '(' ∉ p.toList ∧
      ')' ∉ p.toList ∧ '\n' ∉ p.toList) ∧
    groupedBlockText ["a", "b"] = "import (\n \"a\"\n \"b\"\n)\n".toList ∧
    ∃ m, scanFiles [("proj/a.go",
        FsNode.file "a.go" true (String.mk (groupedBlockText ["a", "b"])) false)] []
        = .ok m ∧ m.Nodup ∧ ∀ x, x ∈ m ↔ x ∈ ["a", "b"] :=
  ⟨by decide, by decide, by decide,
    grouped_block_yields_its_paths "proj/a.go" "a.go" ["a", "b"] (by decide) (by decide)⟩

/-- C13 on concrete inputs: the file whose whole content is the line
`import "c"` without a final newline yields nothing, because the text that
`ReadString` returns together with `io.EOF` is dropped; with the newline the
same line yields `c`. -/
theorem unterminated_import_line_is_dropped :
    listAllImports id "proj" (singleFileTree "import \"c\"") = .ok [] ∧
    listAllImports id "proj" (singleFileTree "import \"c\"\n") = .ok ["c"] := by
  decide

theorem stringsContains_import_prefix (rest : List Char) :
    stringsContains ('i' :: 'm' :: 'p' :: 'o' :: 'r' :: 't' :: ' ' :: rest) importToken
      = true := by
  show stringsContains ('i' :: 'm' :: 'p' :: 'o' :: 'r' :: 't' :: ' ' :: rest)
    ['i', 'm', 'p', 'o', 'r', 't'] = true
  simp [stringsContains, List.isPrefixOf]

/-- A file whose whole content is one single-import line for the path `c`,
ended by a newline, yields exactly `c`. -/
theorem single_import_line_with_newline (fPath name c : String) (hpath : fPath ≠ "")
    (hc : c.toList ≠ [] ∧ '\x22' ∉ c.toList ∧ '(' ∉ c.toList ∧ ')' ∉ c.toList ∧
      '\n' ∉ c.toList) :
    scanFiles [(fPath, FsNode.file name true (String.mk (singleImportText c)) false)] []
      = .ok [c] := by
  obtain ⟨hne, hq, hpar, _, hnl⟩ := hc
  have hline : IsLine (singleImportText c) := by
    refine ⟨['i', 'm', 'p', 'o', 'r', 't', ' '] ++ '\x22' :: (c.toList ++ ['\x22']),
      by simp [singleImportText, quotedLine], ?_⟩
    intro h
    simp only [List.mem_append, List.mem_cons, List.mem_singleton] at h
    rcases h with h | h | h | h
    · revert h; simp
    · exact absurd h (by decide)
    · exact hnl h
    · exact absurd h (by decide)
  have himp : stringsContains (singleImportText c) importToken = true :=
    stringsContains_import_prefix _
  have hopen : stringsContains (singleImportText c) ['('] = false := by
    apply stringsContains_singleton_false
    intro h
    simp only [singleImportText, quotedLine, List.mem_append, List.mem_cons,
      List.mem_singleton, List.nil_append] at h
    rcases h with h | h | h | h | h
    · revert h; simp
    · exact absurd h (by decide)
    · exact hpar h
    · exact absurd h (by decide)
    · exact absurd h (by decide)
  have hf : findString (singleImportText c) = '\x22' :: (c.toList ++ ['\x22']) :=
    findString_quoted ['i', 'm', 'p', 'o', 'r', 't', ' '] c.toList ([] ++ ['\n'])
      (by decide) hne hq
  have hsingle : singleImport (singleImportText c) [] = [c] := by
    unfold singleImport
    simp only [hf, stringsTrim_quoted c.toList hne hq]
    simp [mapInsert, String.toList]
  obtain ⟨k, hk⟩ : ∃ k, (singleImportText c).length + 1 = (k + 1) + 1 :=
    ⟨(singleImportText c).length - 1, by have := hline.length_pos; omega⟩
  have hread : Reader.ReadString ⟨singleImportText c, false⟩
      = (singleImportText c, none, ⟨[], false⟩) := by
    have := readString_line (singleImportText c) [] false hline
    simpa using this
  have hdata : (String.mk (singleImportText c)).toList = singleImportText c := rfl
  simp only [scanFiles, hpath, if_false, osOpen]
  rw [hdata, hk, readLoop_succ, hread]
  simp only [scanImportLine, himp, hopen, if_true, Bool.false_eq_true, if_false, hsingle,
    readLoop_at_end, ite_self]

/-- C19 on a concrete input: the walk fails on the entry `b.go`, the failure
is only printed, and `listAllImports` returns the list computed from the one
file collected before the failure instead of an error. -/
theorem walk_failure_is_not_fatal :
    (filepathWalk (filepathJoin ["proj", "vendor"]) "proj" brokenEntryTree).1 = true ∧
    (filepathWalk (filepathJoin ["proj", "vendor"]) "proj" brokenEntryTree).2.map Prod.fst
      = ["proj/a.go"] ∧
    listAllImports id "proj" brokenEntryTree = .ok ["lib/x"] := by
  decide

/-- Failures that are fatal, on concrete inputs: a file that cannot be opened
and a read that fails make `listAllImports` return an error. -/
theorem open_and_read_failures_are_fatal :
    listAllImports id "proj" unopenableTree = .error (ImportsError.openFile "proj/b.go") ∧
    listAllImports id "proj" unreadableTree = .error (ImportsError.readLine "proj/b.go") := by
  decide

theorem scanFiles_open_failure (fPath : String) (node : FsNode)
    (rest : List (String × FsNode)) (hpath : fPath ≠ "") (hopen : osOpen node = none) :
    ∀ (pre : List (String × FsNode)) (imports : ImportSet),
      ∃ e, scanFiles (pre ++ (fPath, node) :: rest) imports = .error e := by
  intro pre
  induction pre with
  | nil => intro imports; exact ⟨ImportsError.openFile fPath, by simp [scanFiles, hpath, hopen]⟩
  | cons f pre ih =>
    intro imports
    obtain ⟨p, n⟩ := f
    simp only [List.cons_append, scanFiles]
    split
    · exact ih imports
    · split
      · exact ⟨_, rfl⟩
      · split
        · exact ⟨_, rfl⟩
        · exact ih _

/-! ## Further theorems about the package resolver -/

/-- C16: when `getTopLevelPackagesInfo` succeeds on `n` requested paths it
returns `n` records, and the record at position `i` comes from the record
decoded at position `i`: it is that record, or the record the vendor retry
decoded in its place, or that record with `Name` set to its `ImportPath`. -/
theorem one_record_per_requested_path
    (goList : String → List String → CmdOutput) (gopath : String) (pkgs : List String)
    (res : List PkgInfo)
    (hok : getTopLevelPackagesInfo goList gopath pkgs = .ok res) :
    res.length = pkgs.length ∧
      ∀ (i : Nat) (p : String), pkgs[i]? = some p →
        ∃ (info r : PkgInfo),
          (goList gopath (listArgs pkgs)).records[i]? = some info ∧ res[i]? = some r ∧
          info.ImportPath = p ∧
          ((info.failed = false ∧ r = info) ∨
            (info.failed = true ∧ r.failed = false ∧
              (goList gopath (vendorArgs p)).records.head? = some r) ∨
            (info.failed = true ∧ r = { info with Name := info.ImportPath })) := by
  unfold getTopLevelPackagesInfo at hok
  by_cases hf : (goList gopath (listArgs pkgs)).failed = true
  · simp [hf] at hok
  · simp only [hf, Bool.false_eq_true, if_false] at hok
    obtain ⟨outs, hres, hlen, hall⟩ := resolveLoop_ok goList gopath pkgs _ [] res hok
    simp only [List.nil_append] at hres
    subst hres
    refine ⟨hlen, ?_⟩
    intro i p hp
    obtain ⟨info, r, hinfo, hr, hpi, hcase⟩ := hall i p hp
    refine ⟨info, r, hinfo, hr, hpi.symm, ?_⟩
    by_cases hfail : info.failed = true
    · simp only [hfail, if_true] at hcase
      unfold tryVendor at hcase
      rw [← hpi] at hcase
      by_cases hvf : (goList gopath (vendorArgs p)).failed = true
      · simp [hvf] at hcase
      · simp only [hvf, Bool.false_eq_true, if_false] at hcase
        cases hrec : (goList gopath (vendorArgs p)).records with
        | nil => simp [hrec] at hcase
        | cons v vs =>
          simp only [hrec] at hcase
          by_cases hv : v.failed = true
          · simp only [hv, Bool.not_true, Bool.false_eq_true, if_false,
              Except.ok.injEq] at hcase
            right; right
            exact ⟨hfail, by rw [← hcase, ← hpi]⟩
          · simp only [hv, Bool.not_false, if_true, Except.ok.injEq] at hcase
            right; left
            subst hcase
            exact ⟨hfail, by simpa using hv, by simp⟩
    · simp only [hfail, Bool.false_eq_true, if_false] at hcase
      left
      exact ⟨by simpa using hfail, hcase⟩

/-- Witness of C16 on the sample tool chain with a vendored package. -/
theorem one_record_per_requested_path_witness :
    getTopLevelPackagesInfo goListVendored "/go" ["foo"] = .ok [vendorFoo] ∧
    ([vendorFoo].length = ["foo"].length ∧
      ∀ (i : Nat) (p : String), ["foo"][i]? = some p →
        ∃ (info r : PkgInfo),
          (goListVendored "/go" (listArgs ["foo"])).records[i]? = some info ∧
          [vendorFoo][i]? = some r ∧ info.ImportPath = p ∧
          ((info.failed = false ∧ r = info) ∨
            (info.failed = true ∧ r.failed = false ∧
              (goListVendored "/go" (vendorArgs p)).records.head? = some r) ∨
            (info.failed = true ∧ r = { info with Name := info.ImportPath }))) :=
  ⟨by decide,
    one_record_per_requested_path goListVendored "/go" ["foo"] [vendorFoo] (by decide)⟩


/-! ## Further theorems about the license loop -/

theorem cacheSound_store {τ : Type} (h : Helpers τ) (templates : τ)
    (matched : List (String × MatchResult)) (fpath data : String)
    (hs : CacheSound h templates matched) (hr : h.readFile fpath = .ok data) :
    CacheSound h templates (cacheStore matched fpath (h.matchTemplates data templates)) := by
  intro fp m hm
  rw [cacheLookup_cacheStore] at hm
  by_cases hk : fpath = fp
  · simp only [hk, if_true, Option.some.injEq] at hm
    exact ⟨data, hk ▸ hr, hm.symm⟩
  · simp only [hk, if_false] at hm
    exact hs fp m hm

theorem licensesLoop_eq_uncached {τ : Type} (h : Helpers τ) (templates : τ)
    (stdSet : String → Bool) :
    ∀ (infos : List PkgInfo) (matched : List (String × MatchResult))
      (licenses : List License) (calls : List Call),
      CacheSound h templates matched →
      (licensesLoop h templates stdSet infos matched licenses calls).1 =
        uncachedLicenses h templates stdSet infos licenses := by
  intro infos
  induction infos with
  | nil => intro matched licenses calls _; rfl
  | cons info infos ih =>
    intro matched licenses calls hs
    simp only [licensesLoop, uncachedLicenses, uncachedRecord]
    cases hE : info.Error with
    | some e => exact ih _ _ _ hs
    | none =>
      simp only []
      by_cases hstd : stdSet info.ImportPath = true
      · simp only [hstd, if_true]; exact ih _ _ _ hs
      · simp only [hstd, Bool.false_eq_true, if_false]
        cases hfl : h.findLicense info with
        | error msg => rfl
        | ok path =>
          simp only []
          by_cases hpath : path = ""
          · simp only [hpath, ne_eq, not_true_eq_false, if_false]; exact ih _ _ _ hs
          · simp only [hpath, ne_eq, not_false_eq_true, if_true]
            cases hc : cacheLookup matched (filepathJoin [info.Root, "src", path]) with
            | some m =>
              obtain ⟨data, hrd, hm⟩ := hs _ m hc
              simp only [hrd, hm]
              exact ih _ _ _ hs
            | none =>
              cases hrd : h.readFile (filepathJoin [info.Root, "src", path]) with
              | error msg => rfl
              | ok data =>
                simp only []
                exact ih _ _ _ (cacheSound_store h templates matched _ data hs hrd)

theorem cacheSound_empty {τ : Type} (h : Helpers τ) (templates : τ) :
    CacheSound h templates [] := by
  intro fp m hm
  simp [cacheLookup] at hm

theorem uncachedLicenses_ok {τ : Type} (h : Helpers τ) (templates : τ)
    (stdSet : String → Bool) :
    ∀ (infos : List PkgInfo) (licenses : List License),
      (∀ info ∈ infos, ∃ o, uncachedRecord h templates stdSet info = .ok o) →
      uncachedLicenses h templates stdSet infos licenses =
        .ok (licenses ++ infos.filterMap (recordOption h templates stdSet)) := by
  intro infos
  induction infos with
  | nil => intro licenses _; simp [uncachedLicenses]
  | cons info infos ih =>
    intro licenses hall
    obtain ⟨o, ho⟩ := hall info (List.mem_cons_self _ _)
    have hrest := fun i hi => hall i (List.mem_cons_of_mem _ hi)
    simp only [uncachedLicenses, ho, List.filterMap_cons, recordOption]
    cases o with
    | none => simp only []; exact ih licenses hrest
    | some l => simp only []; rw [ih _ hrest]; simp

theorem uncachedLicenses_error {τ : Type} (h : Helpers τ) (templates : τ)
    (stdSet : String → Bool) :
    ∀ (infos : List PkgInfo) (licenses : List License),
      (∃ info ∈ infos, ∃ e, uncachedRecord h templates stdSet info = .error e) →
      ∃ e, uncachedLicenses h templates stdSet infos licenses = .error e := by
  intro infos
  induction infos with
  | nil => intro licenses hex; obtain ⟨_, hm, _⟩ := hex; simp at hm
  | cons info infos ih =>
    intro licenses hex
    simp only [uncachedLicenses]
    cases ho : uncachedRecord h templates stdSet info with
    | error e => exact ⟨e, rfl⟩
    | ok o =>
      have hrest : ∃ i ∈ infos, ∃ e, uncachedRecord h templates stdSet i = .error e := by
        obtain ⟨i, hi, e, he⟩ := hex
        rcases List.mem_cons.mp hi with rfl | hi
        · rw [ho] at he; simp at he
        · exact ⟨i, hi, e, he⟩
      cases o with
      | none => exact ih _ hrest
      | some l => exact ih _ hrest

theorem uncachedLicenses_ok_all {τ : Type} (h : Helpers τ) (templates : τ)
    (stdSet : String → Bool) (infos : List PkgInfo) (licenses res : List License)
    (hok : uncachedLicenses h templates stdSet infos licenses = .ok res) :
    ∀ info ∈ infos, ∃ o, uncachedRecord h templates stdSet info = .ok o := by
  intro info hinfo
  cases ho : uncachedRecord h templates stdSet info with
  | ok o => exact ⟨o, rfl⟩
  | error e =>
    obtain ⟨e1, he1⟩ := uncachedLicenses_error h templates stdSet infos licenses
      ⟨info, hinfo, e, ho⟩
    rw [he1] at hok
    simp at hok

/-- C11: the cache does not change a result. The records that the loop of
`listTopLevelLicenses` returns are the records obtained by reading and scoring
the license file of each package without a cache; and in a run that returns,
the record of a package with a license file carries the `Score`, `Template`,
`ExtraWords` and `MissingWords` that `matchTemplates` gives on the bytes of
that file, so two packages with the same file path get identical values. -/
theorem cache_does_not_change_results {τ : Type} (h : Helpers τ) (templates : τ)
    (stdSet : String → Bool) (infos : List PkgInfo) :
    (licensesLoop h templates stdSet infos [] [] []).1 =
        uncachedLicenses h templates stdSet infos [] ∧
      ∀ res, (licensesLoop h templates stdSet infos [] [] []).1 = .ok res →
        ∀ info ∈ infos, info.Error = none → stdSet info.ImportPath = false →
          ∃ path, h.findLicense info = .ok path ∧
            (path ≠ "" →
              ∃ data license,
                h.readFile (filepathJoin [info.Root, "src", path]) = .ok data ∧
                license ∈ res ∧ license.Package = info.ImportPath ∧ license.Path = path ∧
                license.Score = (h.matchTemplates data templates).Score ∧
                license.Template = (h.matchTemplates data templates).Template ∧
                license.ExtraWords = (h.matchTemplates data templates).ExtraWords ∧
                license.MissingWords = (h.matchTemplates data templates).MissingWords) := by
  have href := licensesLoop_eq_uncached h templates stdSet infos [] [] []
    (cacheSound_empty h templates)
  refine ⟨href, ?_⟩
  intro res hres info hinfo hE hstd
  rw [href] at hres
  have hall := uncachedLicenses_ok_all h templates stdSet infos [] res hres
  rw [uncachedLicenses_ok h templates stdSet infos [] hall] at hres
  simp only [List.nil_append, Except.ok.injEq] at hres
  obtain ⟨o, ho⟩ := hall info hinfo
  have ho2 := ho
  simp only [uncachedRecord, hE, hstd, Bool.false_eq_true, if_false] at ho
  cases hfl : h.findLicense info with
  | error msg => simp [hfl] at ho
  | ok path =>
    refine ⟨path, rfl, ?_⟩
    intro hpath
    simp only [hfl, hpath, ne_eq, not_false_eq_true, if_true] at ho
    cases hrd : h.readFile (filepathJoin [info.Root, "src", path]) with
    | error msg => simp [hrd] at ho
    | ok data =>
      simp only [hrd, Except.ok.injEq] at ho
      refine ⟨data, License.withMatch { Package := info.ImportPath, Path := path }
        (h.matchTemplates data templates), rfl, ?_, rfl, rfl, rfl, rfl, rfl, rfl⟩
      rw [← hres]
      apply List.mem_filterMap.mpr
      exact ⟨info, hinfo, by simp only [recordOption, ho2, ← ho]⟩

/-- Two packages that share a license file get the same score, template and
word lists, the second one from the cache. -/
theorem shared_license_records_example :
    (licensesLoop sampleHelpers () (fun _ => false) subPackages [] [] []).1 =
      .ok [⟨"lib/a", 1, "MIT", "LICENSE", "", [], []⟩,
        ⟨"lib/b", 1, "MIT", "LICENSE", "", [], []⟩] := by
  decide

theorem recordOption_package {τ : Type} (h : Helpers τ) (templates : τ)
    (stdSet : String → Bool) (info : PkgInfo) (o : Option License)
    (hE : info.Error = none)
    (ho : uncachedRecord h templates stdSet info = .ok o) :
    (o.map License.Package).toList =
      if stdSet info.ImportPath then [] else [info.ImportPath] := by
  simp only [uncachedRecord, hE] at ho
  by_cases hstd : stdSet info.ImportPath = true
  · simp only [hstd, if_true, Except.ok.injEq] at ho
    simp [hstd, ← ho]
  · simp only [hstd, Bool.false_eq_true, if_false] at ho ⊢
    cases hfl : h.findLicense info with
    | error msg => simp [hfl] at ho
    | ok path =>
      simp only [hfl] at ho
      by_cases hpath : path = ""
      · simp only [hpath, ne_eq, not_true_eq_false, if_false, Except.ok.injEq] at ho
        simp [← ho]
      · simp only [hpath, ne_eq, not_false_eq_true, if_true] at ho
        cases hrd : h.readFile (filepathJoin [info.Root, "src", path]) with
        | error msg => simp [hrd] at ho
        | ok data =>
          simp only [hrd, Except.ok.injEq] at ho
          simp [← ho, License.withMatch]

theorem filterMap_recordOption_packages {τ : Type} (h : Helpers τ) (templates : τ)
    (stdSet : String → Bool) :
    ∀ infos : List PkgInfo,
      (∀ info ∈ infos, info.Error = none) →
      (∀ info ∈ infos, ∃ o, uncachedRecord h templates stdSet info = .ok o) →
      (infos.filterMap (recordOption h templates stdSet)).map License.Package =
        (infos.filter (fun info => !stdSet info.ImportPath)).map PkgInfo.ImportPath := by
  intro infos
  induction infos with
  | nil => intro _ _; rfl
  | cons info infos ih =>
    intro hE hall
    obtain ⟨o, ho⟩ := hall info (List.mem_cons_self _ _)
    have hpk := recordOption_package h templates stdSet info o
      (hE info (List.mem_cons_self _ _)) ho
    have ih1 := ih (fun i hi => hE i (List.mem_cons_of_mem _ hi))
      (fun i hi => hall i (List.mem_cons_of_mem _ hi))
    simp only [List.filterMap_cons, recordOption, ho, List.filter_cons]
    by_cases hstd : stdSet info.ImportPath = true
    · simp only [hstd, if_true] at hpk
      cases o with
      | none => simpa [hstd, recordOption] using ih1
      | some l => simp at hpk
    · simp only [hstd, Bool.false_eq_true, if_false] at hpk
      cases o with
      | none => simp at hpk
      | some l =>
        simp only [Option.map_some', Option.toList_some, List.cons.injEq, and_true] at hpk
        simpa [hstd, recordOption, hpk] using ih1

/-- C14: when no package carries a resolution error and the license lookup
and the file reads succeed, `listTopLevelLicenses` returns one record per
package that is not in the standard set, in the order of the resolved list,
each with the `ImportPath` of its package as `Package`; the packages of the
standard set give no record and no error. -/
theorem one_record_per_non_standard_package {τ : Type} (h : Helpers τ) (templates : τ)
    (stdSet : String → Bool) (infos : List PkgInfo)
    (hE : ∀ info ∈ infos, info.Error = none)
    (hfind : ∀ info ∈ infos, stdSet info.ImportPath = false →
      ∃ path, h.findLicense info = .ok path ∧
        (path ≠ "" → ∃ data, h.readFile (filepathJoin [info.Root, "src", path]) = .ok data)) :
    ∃ res, (licensesLoop h templates stdSet infos [] [] []).1 = .ok res ∧
      res.map License.Package =
        (infos.filter (fun info => !stdSet info.ImportPath)).map PkgInfo.ImportPath := by
  have hall : ∀ info ∈ infos, ∃ o, uncachedRecord h templates stdSet info = .ok o := by
    intro info hinfo
    simp only [uncachedRecord, hE info hinfo]
    by_cases hstd : stdSet info.ImportPath = true
    · exact ⟨none, by simp [hstd]⟩
    · obtain ⟨path, hfl, hread⟩ := hfind info hinfo (by simpa using hstd)
      simp only [hstd, Bool.false_eq_true, if_false, hfl]
      by_cases hpath : path = ""
      · simp only [hpath, ne_eq, not_true_eq_false, if_false]
        exact ⟨_, rfl⟩
      · obtain ⟨data, hrd⟩ := hread hpath
        simp only [hpath, ne_eq, not_false_eq_true, if_true, hrd]
        exact ⟨_, rfl⟩
  refine ⟨infos.filterMap (recordOption h templates stdSet), ?_,
    filterMap_recordOption_packages h templates stdSet infos hE hall⟩
  rw [licensesLoop_eq_uncached h templates stdSet infos [] [] []
    (cacheSound_empty h templates), uncachedLicenses_ok h templates stdSet infos [] hall]
  simp

/-- Witness of C14: of three packages the standard one is left out. -/
theorem one_record_per_non_standard_package_witness :
    (∀ info ∈ mixedPackages, info.Error = none) ∧
    (∀ info ∈ mixedPackages, (fun n => ["fmt"].contains n) info.ImportPath = false →
      ∃ path, sampleHelpers.findLicense info = .ok path ∧
        (path ≠ "" →
          ∃ data, sampleHelpers.readFile (filepathJoin [info.Root, "src", path]) = .ok data)) ∧
    (licensesLoop sampleHelpers () (fun n => ["fmt"].contains n) mixedPackages [] [] []).1
      = .ok [⟨"lib/a", 1, "MIT", "LICENSE", "", [], []⟩,
          ⟨"lib/b", 1, "MIT", "LICENSE", "", [], []⟩] ∧
    ∃ res, (licensesLoop sampleHelpers () (fun n => ["fmt"].contains n)
        mixedPackages [] [] []).1 = .ok res ∧
      res.map License.Package =
        (mixedPackages.filter
          (fun info => !(fun n => ["fmt"].contains n) info.ImportPath)).map
          PkgInfo.ImportPath :=
  have h1 : ∀ info ∈ mixedPackages, info.Error = none := by decide
  have h2 : ∀ info ∈ mixedPackages, (fun n => ["fmt"].contains n) info.ImportPath = false →
      ∃ path, sampleHelpers.findLicense info = .ok path ∧
        (path ≠ "" →
          ∃ data, sampleHelpers.readFile (filepathJoin [info.Root, "src", path])
            = .ok data) :=
    fun _ _ _ => ⟨"LICENSE", rfl, fun _ => ⟨"text", rfl⟩⟩
  ⟨h1, h2, by decide,
    one_record_per_non_standard_package sampleHelpers () (fun n => ["fmt"].contains n)
      mixedPackages h1 h2⟩

theorem licensesLoop_acc {τ : Type} (h : Helpers τ) (templates : τ)
    (stdSet : String → Bool) :
    ∀ (infos : List PkgInfo) (matched : List (String × MatchResult))
      (licenses : List License) (calls : List Call),
      licensesLoop h templates stdSet infos matched licenses calls =
        (Except.map (fun res => licenses ++ res)
            (licensesLoop h templates stdSet infos matched [] calls).1,
          (licensesLoop h templates stdSet infos matched [] calls).2) := by
  intro infos
  induction infos with
  | nil => intro matched licenses calls; simp [licensesLoop, Except.map]
  | cons info infos ih =>
    intro matched licenses calls
    have step : ∀ (m : List (String × MatchResult)) (x : License) (c : List Call),
        licensesLoop h templates stdSet infos m (licenses ++ [x]) c =
          (Except.map (fun res => licenses ++ res)
              (licensesLoop h templates stdSet infos m ([] ++ [x]) c).1,
            (licensesLoop h templates stdSet infos m ([] ++ [x]) c).2) := by
      intro m x c
      rw [ih m (licenses ++ [x]) c, ih m ([] ++ [x]) c]
      cases (licensesLoop h templates stdSet infos m [] c).1 with
      | error e => rfl
      | ok r => simp [Except.map]
    simp only [licensesLoop]
    cases hE : info.Error with
    | some e => exact step _ _ _
    | none =>
      simp only []
      by_cases hstd : stdSet info.ImportPath = true
      · simp only [hstd, if_true]; exact ih _ _ _
      · simp only [hstd, Bool.false_eq_true, if_false]
        cases hfl : h.findLicense info with
        | error msg => rfl
        | ok path =>
          simp only []
          by_cases hpath : path = ""
          · simp only [hpath, ne_eq, not_true_eq_false, if_false]; exact step _ _ _
          · simp only [hpath, ne_eq, not_false_eq_true, if_true]
            cases hc : cacheLookup matched (filepathJoin [info.Root, "src", path]) with
            | some m => exact step _ _ _
            | none =>
              simp only []
              cases hrd : h.readFile (filepathJoin [info.Root, "src", path]) with
              | error msg => rfl
              | ok data => exact step _ _ _

theorem licensesLoop_no_license_step {τ : Type} (h : Helpers τ) (templates : τ)
    (stdSet : String → Bool) (info : PkgInfo) (infos : List PkgInfo)
    (matched : List (String × MatchResult)) (licenses : List License) (calls : List Call)
    (hE : info.Error = none) (hstd : stdSet info.ImportPath = false)
    (hfl : h.findLicense info = .ok "") :
    licensesLoop h templates stdSet (info :: infos) matched licenses calls =
      licensesLoop h templates stdSet infos matched
        (licenses ++ [⟨info.ImportPath, 0, "", "", "", [], []⟩]) calls := by
  simp only [licensesLoop, hE, hstd, hfl, Bool.false_eq_true, if_false, ne_eq,
    not_true_eq_false]

/-- C15: a package without a resolution error, outside the standard set, for
which `findLicense` returns the empty path does not make the run fail and
causes no file read and no matcher call: the run makes the same calls as the
run without the package, fails only if that run fails, and otherwise returns
the records of that run with the record of the package inserted, which has
an empty `Path`, a zero `Score`, an empty `Template`, no extra or missing
words and no error. -/
theorem package_without_license_file {τ : Type} (h : Helpers τ) (templates : τ)
    (stdSet : String → Bool) (info : PkgInfo) (post : List PkgInfo)
    (hE : info.Error = none) (hstd : stdSet info.ImportPath = false)
    (hfl : h.findLicense info = .ok "") :
    ∀ (pre : List PkgInfo) (matched : List (String × MatchResult))
      (licenses : List License) (calls : List Call),
      (licensesLoop h templates stdSet (pre ++ info :: post) matched licenses calls).2 =
          (licensesLoop h templates stdSet (pre ++ post) matched licenses calls).2 ∧
        (∀ e, (licensesLoop h templates stdSet (pre ++ post) matched licenses calls).1
            = .error e →
          (licensesLoop h templates stdSet (pre ++ info :: post) matched licenses calls).1
            = .error e) ∧
        (∀ res, (licensesLoop h templates stdSet (pre ++ post) matched licenses calls).1
            = .ok res →
          ∃ a b, res = a ++ b ∧
            (licensesLoop h templates stdSet (pre ++ info :: post) matched licenses calls).1
              = .ok (a ++ ⟨info.ImportPath, 0, "", "", "", [], []⟩ :: b)) := by
  intro pre
  induction pre with
  | nil =>
    intro matched licenses calls
    simp only [List.nil_append]
    rw [licensesLoop_no_license_step h templates stdSet info post matched licenses calls
      hE hstd hfl]
    rw [licensesLoop_acc h templates stdSet post matched
      (licenses ++ [(⟨info.ImportPath, 0, "", "", "", [], []⟩ : License)]) calls,
      licensesLoop_acc h templates stdSet post matched licenses calls]
    refine ⟨rfl, ?_, ?_⟩
    · intro e he
      cases hr : (licensesLoop h templates stdSet post matched [] calls).1 with
      | error e1 => simpa [hr, Except.map] using he
      | ok r => simp [hr, Except.map] at he
    · intro res hres
      cases hr : (licensesLoop h templates stdSet post matched [] calls).1 with
      | error e1 => simp [hr, Except.map] at hres
      | ok r =>
        simp only [hr, Except.map, Except.ok.injEq] at hres
        exact ⟨licenses, r, hres.symm, by simp [hr, Except.map]⟩
  | cons i pre ih =>
    intro matched licenses calls
    simp only [List.cons_append, licensesLoop]
    cases hiE : i.Error with
    | some e => exact ih _ _ _
    | none =>
      simp only []
      by_cases histd : stdSet i.ImportPath = true
      · simp only [histd, if_true]; exact ih _ _ _
      · simp only [histd, Bool.false_eq_true, if_false]
        cases hifl : h.findLicense i with
        | error msg => exact ⟨rfl, fun e he => he, fun res hres => by simp at hres⟩
        | ok path =>
          simp only []
          by_cases hpath : path = ""
          · simp only [hpath, ne_eq, not_true_eq_false, if_false]; exact ih _ _ _
          · simp only [hpath, ne_eq, not_false_eq_true, if_true]
            cases hc : cacheLookup matched (filepathJoin [i.Root, "src", path]) with
            | some m => exact ih _ _ _
            | none =>
              simp only []
              cases hrd : h.readFile (filepathJoin [i.Root, "src", path]) with
              | error msg => exact ⟨rfl, fun e he => he, fun res hres => by simp at hres⟩
              | ok data => exact ih _ _ _

/-- Witness of C15: a package without a license file is reported with an
empty record and no call is made. -/
theorem package_without_license_file_witness :
    (⟨"a", "/go", "lib/a", none⟩ : PkgInfo).Error = none ∧
    (fun n => ["fmt"].contains n) (⟨"a", "/go", "lib/a", none⟩ : PkgInfo).ImportPath = false ∧
    noLicenseHelpers.findLicense ⟨"a", "/go", "lib/a", none⟩ = .ok "" ∧
    licensesLoop noLicenseHelpers () (fun n => ["fmt"].contains n)
        ([] ++ ⟨"a", "/go", "lib/a", none⟩ :: []) [] [] []
      = (.ok [⟨"lib/a", 0, "", "", "", [], []⟩], []) ∧
    ∀ (pre : List PkgInfo) (matched : List (String × MatchResult))
      (licenses : List License) (calls : List Call),
      (licensesLoop noLicenseHelpers () (fun n => ["fmt"].contains n)
          (pre ++ ⟨"a", "/go", "lib/a", none⟩ :: []) matched licenses calls).2 =
          (licensesLoop noLicenseHelpers () (fun n => ["fmt"].contains n)
            (pre ++ []) matched licenses calls).2 ∧
        (∀ e, (licensesLoop noLicenseHelpers () (fun n => ["fmt"].contains n)
            (pre ++ []) matched licenses calls).1 = .error e →
          (licensesLoop noLicenseHelpers () (fun n => ["fmt"].contains n)
            (pre ++ ⟨"a", "/go", "lib/a", none⟩ :: []) matched licenses calls).1
            = .error e) ∧
        (∀ res, (licensesLoop noLicenseHelpers () (fun n => ["fmt"].contains n)
            (pre ++ []) matched licenses calls).1 = .ok res →
          ∃ a b, res = a ++ b ∧
            (licensesLoop noLicenseHelpers () (fun n => ["fmt"].contains n)
              (pre ++ ⟨"a", "/go", "lib/a", none⟩ :: []) matched licenses calls).1
              = .ok (a ++ ⟨(⟨"a", "/go", "lib/a", none⟩ : PkgInfo).ImportPath,
                  0, "", "", "", [], []⟩ :: b)) :=
  ⟨by decide, by decide, by decide, by decide,
    package_without_license_file noLicenseHelpers () (fun n => ["fmt"].contains n)
      ⟨"a", "/go", "lib/a", none⟩ [] (by decide) (by decide) (by decide)⟩

theorem resolveLoop_answers_ok (goList : String → List String → CmdOutput)
    (gopath : String) (answer : String → PkgInfo) :
    ∀ (deps : List String) (infos : List PkgInfo),
      (∀ p ∈ deps, ∃ r, resolveOne goList gopath answer p = .ok r) →
      resolveLoop goList gopath deps (deps.map answer) infos =
        .ok (infos ++ deps.filterMap (resolvedOption goList gopath answer)) := by
  intro deps
  induction deps with
  | nil => intro infos _; simp [resolveLoop]
  | cons p deps ih =>
    intro infos hall
    obtain ⟨r, hr⟩ := hall p (List.mem_cons_self _ _)
    have hrest := fun q hq => hall q (List.mem_cons_of_mem _ hq)
    have hopt : resolvedOption goList gopath answer p = some r := by
      simp only [resolvedOption, hr]
    simp only [List.map_cons, resolveLoop, List.filterMap_cons, hopt]
    unfold resolveOne at hr
    by_cases hm : p = (answer p).ImportPath
    · simp only [ne_eq, hm.symm ▸ hm, not_true_eq_false, if_false] at hr ⊢
      rw [if_neg (by simpa using hm)] at hr
      rw [if_neg (by simpa using hm)]
      by_cases hf : (answer p).failed = true
      · simp only [hf, if_true] at hr ⊢
        rw [hr]
        simp only []
        rw [ih _ hrest]; simp
      · simp only [hf, Bool.false_eq_true, if_false, Except.ok.injEq] at hr ⊢
        rw [ih _ hrest, hr]; simp
    · rw [if_pos (by simpa using hm)] at hr
      simp at hr

theorem resolveLoop_answers_error (goList : String → List String → CmdOutput)
    (gopath : String) (answer : String → PkgInfo) :
    ∀ (deps : List String) (infos : List PkgInfo),
      (∃ p ∈ deps, ∃ e, resolveOne goList gopath answer p = .error e) →
      ∃ e, resolveLoop goList gopath deps (deps.map answer) infos = .error e := by
  intro deps
  induction deps with
  | nil => intro infos hex; obtain ⟨_, hm, _⟩ := hex; simp at hm
  | cons p deps ih =>
    intro infos hex
    simp only [List.map_cons, resolveLoop]
    by_cases hm : p = (answer p).ImportPath
    · rw [if_neg (by simpa using hm)]
      have hrest : resolveOne goList gopath answer p
            = (if (answer p).failed = true then tryVendor goList gopath p (answer p)
              else .ok (answer p)) := by
        unfold resolveOne
        rw [if_neg (by simpa using hm)]
      by_cases hf : (answer p).failed = true
      · simp only [hf, if_true] at hrest ⊢
        cases hv : tryVendor goList gopath p (answer p) with
        | error e => exact ⟨e, rfl⟩
        | ok r =>
          simp only []
          apply ih
          obtain ⟨q, hq, e, he⟩ := hex
          rcases List.mem_cons.mp hq with rfl | hq
          · rw [hrest, hv] at he; simp at he
          · exact ⟨q, hq, e, he⟩
      · simp only [hf, Bool.false_eq_true, if_false] at hrest ⊢
        apply ih
        obtain ⟨q, hq, e, he⟩ := hex
        rcases List.mem_cons.mp hq with rfl | hq
        · rw [hrest] at he; simp at he
        · exact ⟨q, hq, e, he⟩
    · rw [if_pos (by simpa using hm)]
      exact ⟨_, rfl⟩

theorem resolveLoop_perm (goList : String → List String → CmdOutput)
    (gopath : String) (answer : String → PkgInfo) (deps1 deps2 : List String)
    (hp : deps1.Perm deps2) :
    (∃ e1 e2, resolveLoop goList gopath deps1 (deps1.map answer) [] = .error e1 ∧
        resolveLoop goList gopath deps2 (deps2.map answer) [] = .error e2) ∨
      ∃ infos1 infos2, resolveLoop goList gopath deps1 (deps1.map answer) [] = .ok infos1 ∧
        resolveLoop goList gopath deps2 (deps2.map answer) [] = .ok infos2 ∧
        infos1.Perm infos2 := by
  by_cases hall : ∀ p ∈ deps1, ∃ r, resolveOne goList gopath answer p = .ok r
  · right
    have hall2 : ∀ p ∈ deps2, ∃ r, resolveOne goList gopath answer p = .ok r :=
      fun p hp2 => hall p (hp.mem_iff.mpr hp2)
    refine ⟨_, _, resolveLoop_answers_ok goList gopath answer deps1 [] hall,
      resolveLoop_answers_ok goList gopath answer deps2 [] hall2, ?_⟩
    simpa using hp.filterMap (resolvedOption goList gopath answer)
  · left
    have hex : ∃ p ∈ deps1, ∃ e, resolveOne goList gopath answer p = .error e := by
      by_contra hcon
      apply hall
      intro p hp1
      cases hr : resolveOne goList gopath answer p with
      | ok r => exact ⟨r, rfl⟩
      | error e => exact absurd ⟨p, hp1, e, hr⟩ hcon
    have hex2 : ∃ p ∈ deps2, ∃ e, resolveOne goList gopath answer p = .error e := by
      obtain ⟨p, hp1, e, he⟩ := hex
      exact ⟨p, hp.mem_iff.mp hp1, e, he⟩
    obtain ⟨e1, he1⟩ := resolveLoop_answers_error goList gopath answer deps1 [] hex
    obtain ⟨e2, he2⟩ := resolveLoop_answers_error goList gopath answer deps2 [] hex2
    exact ⟨e1, e2, he1, he2⟩

theorem licensesLoop_perm {τ : Type} (h : Helpers τ) (templates : τ)
    (stdSet : String → Bool) (infos1 infos2 : List PkgInfo) (hp : infos1.Perm infos2) :
    (∃ e1 e2, (licensesLoop h templates stdSet infos1 [] [] []).1 = .error e1 ∧
        (licensesLoop h templates stdSet infos2 [] [] []).1 = .error e2) ∨
      ∃ r1 r2, (licensesLoop h templates stdSet infos1 [] [] []).1 = .ok r1 ∧
        (licensesLoop h templates stdSet infos2 [] [] []).1 = .ok r2 ∧ r1.Perm r2 := by
  rw [licensesLoop_eq_uncached h templates stdSet infos1 [] [] []
      (cacheSound_empty h templates),
    licensesLoop_eq_uncached h templates stdSet infos2 [] [] []
      (cacheSound_empty h templates)]
  by_cases hall : ∀ info ∈ infos1, ∃ o, uncachedRecord h templates stdSet info = .ok o
  · right
    have hall2 : ∀ info ∈ infos2, ∃ o, uncachedRecord h templates stdSet info = .ok o :=
      fun i hi => hall i (hp.mem_iff.mpr hi)
    refine ⟨_, _, uncachedLicenses_ok h templates stdSet infos1 [] hall,
      uncachedLicenses_ok h templates stdSet infos2 [] hall2, ?_⟩
    simpa using hp.filterMap (recordOption h templates stdSet)
  · left
    have hex : ∃ info ∈ infos1, ∃ e, uncachedRecord h templates stdSet info = .error e := by
      by_contra hcon
      apply hall
      intro i hi
      cases hr : uncachedRecord h templates stdSet i with
      | ok o => exact ⟨o, rfl⟩
      | error e => exact absurd ⟨i, hi, e, hr⟩ hcon
    have hex2 : ∃ info ∈ infos2, ∃ e, uncachedRecord h templates stdSet info = .error e := by
      obtain ⟨i, hi, e, he⟩ := hex
      exact ⟨i, hp.mem_iff.mp hi, e, he⟩
    obtain ⟨e1, he1⟩ := uncachedLicenses_error h templates stdSet infos1 [] hex
    obtain ⟨e2, he2⟩ := uncachedLicenses_error h templates stdSet infos2 [] hex2
    exact ⟨e1, e2, he1, he2⟩

theorem listAllImports_cases (keysOrder : ImportSet → List String) (fPath : String)
    (root : FsNode) :
    listAllImports keysOrder fPath root =
      match listAllImports id fPath root with
      | .error e => .error e
      | .ok imports => .ok (keysOrder imports) := by
  unfold listAllImports
  simp only []
  cases hs : scanFiles (filepathWalk (filepathJoin [fPath, "vendor"]) fPath root).2 [] with
  | error e => rfl
  | ok m => rfl

/-- C18, as stated, fails: the two runs differ only in the order in which the
keys of the map of `listAllImports` are listed, and they return the same two
records in opposite orders. -/
theorem map_order_changes_record_order :
    listAllImports id "proj" twoImportsTree = .ok ["lib/a", "lib/b"] ∧
    listAllImports List.reverse "proj" twoImportsTree = .ok ["lib/b", "lib/a"] ∧
    (listTopLevelLicenses sampleHelpers goListEcho id "proj" twoImportsTree "/go" []).1
      = .ok [⟨"lib/a", 1, "MIT", "LICENSE", "", [], []⟩,
          ⟨"lib/b", 1, "MIT", "LICENSE", "", [], []⟩] ∧
    (listTopLevelLicenses sampleHelpers goListEcho List.reverse "proj" twoImportsTree
        "/go" []).1
      = .ok [⟨"lib/b", 1, "MIT", "LICENSE", "", [], []⟩,
          ⟨"lib/a", 1, "MIT", "LICENSE", "", [], []⟩] := by
  decide

/-- C18, amended: two runs of the pipeline over the same source tree, the
same templates and a tool chain that answers every package with the same
record whatever the order of the request either both fail or both return
record lists with the same records, possibly in a different order; the order
follows the order in which the keys of the map of `listAllImports` are
listed, which may differ between the runs. -/
theorem same_records_up_to_order {τ : Type} (h : Helpers τ)
    (goList : String → List String → CmdOutput) (answer : String → PkgInfo)
    (keysOrder1 keysOrder2 : ImportSet → List String) (arg1 : String) (root : FsNode)
    (gopath : String) (pkgs : List String)
    (hk1 : ∀ m, (keysOrder1 m).Perm m) (hk2 : ∀ m, (keysOrder2 m).Perm m)
    (hrec : ∀ deps, (goList gopath (listArgs deps)).records = deps.map answer)
    (hrun : ∀ deps1 deps2, deps1.Perm deps2 →
      (goList gopath (listArgs deps1)).failed = (goList gopath (listArgs deps2)).failed) :
    (∃ e1 e2,
        (listTopLevelLicenses h goList keysOrder1 arg1 root gopath pkgs).1 = .error e1 ∧
        (listTopLevelLicenses h goList keysOrder2 arg1 root gopath pkgs).1 = .error e2) ∨
      ∃ r1 r2,
        (listTopLevelLicenses h goList keysOrder1 arg1 root gopath pkgs).1 = .ok r1 ∧
        (listTopLevelLicenses h goList keysOrder2 arg1 root gopath pkgs).1 = .ok r2 ∧
        r1.Perm r2 := by
  unfold listTopLevelLicenses
  cases h.loadTemplates with
  | error msg => exact Or.inl ⟨_, _, rfl, rfl⟩
  | ok templates =>
    simp only []
    rw [listAllImports_cases keysOrder1, listAllImports_cases keysOrder2]
    cases listAllImports id arg1 root with
    | error e => exact Or.inl ⟨_, _, rfl, rfl⟩
    | ok m =>
      simp only []
      cases h.listStandardPackages gopath with
      | error msg => exact Or.inl ⟨_, _, rfl, rfl⟩
      | ok std =>
        simp only []
        have hperm : (keysOrder1 m).Perm (keysOrder2 m) := (hk1 m).trans (hk2 m).symm
        have hflag := hrun _ _ hperm
        unfold getTopLevelPackagesInfo
        simp only [hrec]
        by_cases hf : (goList gopath (listArgs (keysOrder2 m))).failed = true
        · rw [hf] at hflag
          simp only [hf, hflag, if_true]
          exact Or.inl ⟨_, _, rfl, rfl⟩
        · rw [Bool.not_eq_true] at hf
          rw [hf] at hflag
          simp only [hf, hflag, Bool.false_eq_true, if_false]
          rcases resolveLoop_perm goList gopath answer _ _ hperm with
            ⟨e1, e2, he1, he2⟩ | ⟨infos1, infos2, h1, h2, hinfos⟩
          · simp only [he1, he2]
            exact Or.inl ⟨_, _, rfl, rfl⟩
          · simp only [h1, h2]
            exact licensesLoop_perm h templates _ infos1 infos2 hinfos

/-- Witness of amended C18 on the sample tool chain that echoes the request,
with the keys listed in order of insertion and in reverse. -/
theorem same_records_up_to_order_witness :
    (∀ m : ImportSet, (id m).Perm m) ∧ (∀ m : ImportSet, (List.reverse m).Perm m) ∧
    (∀ deps, (goListEcho "/go" (listArgs deps)).records
      = deps.map (fun p => (⟨p, "/go", p, none⟩ : PkgInfo))) ∧
    (∀ deps1 deps2 : List String, deps1.Perm deps2 →
      (goListEcho "/go" (listArgs deps1)).failed
        = (goListEcho "/go" (listArgs deps2)).failed) ∧
    ((∃ e1 e2,
        (listTopLevelLicenses sampleHelpers goListEcho id "proj" twoImportsTree "/go" []).1
          = .error e1 ∧
        (listTopLevelLicenses sampleHelpers goListEcho List.reverse "proj" twoImportsTree
          "/go" []).1 = .error e2) ∨
      ∃ r1 r2,
        (listTopLevelLicenses sampleHelpers goListEcho id "proj" twoImportsTree "/go" []).1
          = .ok r1 ∧
        (listTopLevelLicenses sampleHelpers goListEcho List.reverse "proj" twoImportsTree
          "/go" []).1 = .ok r2 ∧
        r1.Perm r2) :=
  have h3 : ∀ deps, (goListEcho "/go" (listArgs deps)).records
      = deps.map (fun p => (⟨p, "/go", p, none⟩ : PkgInfo)) := by
    intro deps
    simp [goListEcho, listArgs]
  have h4 : ∀ deps1 deps2 : List String, deps1.Perm deps2 →
      (goListEcho "/go" (listArgs deps1)).failed
        = (goListEcho "/go" (listArgs deps2)).failed := fun _ _ _ => rfl
  ⟨fun m => List.Perm.refl m, fun m => List.reverse_perm m, h3, h4,
    same_records_up_to_order sampleHelpers goListEcho (fun p => ⟨p, "/go", p, none⟩)
      id List.reverse "proj" twoImportsTree "/go" []
      (fun m => List.Perm.refl m) (fun m => List.reverse_perm m) h3 h4⟩

theorem licensesLoop_ok_mem {τ : Type} (h : Helpers τ) (templates : τ)
    (stdSet : String → Bool) :
    ∀ (infos : List PkgInfo) (matched : List (String × MatchResult))
      (licenses : List License) (calls : List Call) (res : List License),
      (licensesLoop h templates stdSet infos matched licenses calls).1 = .ok res →
      (∀ l ∈ licenses, l ∈ res) ∧
        ∀ info ∈ infos, ∀ e, info.Error = some e →
          (⟨info.Name, 0, "", "", e.Err, [], []⟩ : License) ∈ res := by
  intro infos
  induction infos with
  | nil =>
    intro matched licenses calls res hres
    simp only [licensesLoop, Except.ok.injEq] at hres
    subst hres
    exact ⟨fun l hl => hl, fun info hinfo => by simp at hinfo⟩
  | cons i infos ih =>
    intro matched licenses calls res hres
    have keep : ∀ (m : List (String × MatchResult)) (ls : List License) (c : List Call),
        (licensesLoop h templates stdSet infos m ls c).1 = .ok res →
        (∀ l ∈ licenses, l ∈ ls) → i.Error = none →
        (∀ l ∈ licenses, l ∈ res) ∧
          ∀ info ∈ i :: infos, ∀ e, info.Error = some e →
            (⟨info.Name, 0, "", "", e.Err, [], []⟩ : License) ∈ res := by
      intro m ls c hrun hsub hnone
      obtain ⟨h1, h2⟩ := ih m ls c res hrun
      refine ⟨fun l hl => h1 l (hsub l hl), ?_⟩
      intro info hinfo e he
      rcases List.mem_cons.mp hinfo with rfl | hinfo
      · rw [hnone] at he; simp at he
      · exact h2 info hinfo e he
    simp only [licensesLoop] at hres
    cases hE : i.Error with
    | some e =>
      simp only [hE] at hres
      obtain ⟨h1, h2⟩ := ih _ _ _ res hres
      refine ⟨fun l hl => h1 l (List.mem_append_left _ hl), ?_⟩
      intro info hinfo e1 he1
      rcases List.mem_cons.mp hinfo with rfl | hinfo
      · rw [hE, Option.some.injEq] at he1
        subst he1
        exact h1 _ (List.mem_append_right _ (List.mem_singleton_self _))
      · exact h2 info hinfo e1 he1
    | none =>
      simp only [hE] at hres
      by_cases hstd : stdSet i.ImportPath = true
      · simp only [hstd, if_true] at hres
        exact keep _ _ _ hres (fun l hl => hl) hE
      · simp only [hstd, Bool.false_eq_true, if_false] at hres
        cases hfl : h.findLicense i with
        | error msg => simp [hfl] at hres
        | ok path =>
          simp only [hfl] at hres
          by_cases hpath : path = ""
          · simp only [hpath, ne_eq, not_true_eq_false, if_false] at hres
            exact keep _ _ _ hres (fun l hl => List.mem_append_left _ hl) hE
          · simp only [hpath, ne_eq, not_false_eq_true, if_true] at hres
            cases hc : cacheLookup matched (filepathJoin [i.Root, "src", path]) with
            | some m =>
              simp only [hc] at hres
              exact keep _ _ _ hres (fun l hl => List.mem_append_left _ hl) hE
            | none =>
              simp only [hc] at hres
              cases hrd : h.readFile (filepathJoin [i.Root, "src", path]) with
              | error msg => simp [hrd] at hres
              | ok data =>
                simp only [hrd] at hres
                exact keep _ _ _ hres (fun l hl => List.mem_append_left _ hl) hE

theorem licensesLoop_filter_std {τ : Type} (h : Helpers τ)
    (templates : τ) (stdSet : String → Bool) (infos : List PkgInfo)
    (matched : List (String × MatchResult)) (licenses : List License) (calls : List Call) :
    licensesLoop h templates stdSet infos matched licenses calls =
      licensesLoop h templates stdSet
        (infos.filter (fun info => info.Error.isSome || !stdSet info.ImportPath))
        matched licenses calls := by
  induction infos generalizing matched licenses calls with
  | nil => rfl
  | cons info infos ih =>
    cases hE : info.Error with
    | some e =>
      simp only [List.filter_cons, hE, Option.isSome_some, Bool.true_or, if_true, licensesLoop]
      exact ih _ _ _
    | none =>
      by_cases hstd : stdSet info.ImportPath = true
      · simp only [List.filter_cons, hE, Option.isSome_none, Bool.false_or, hstd, Bool.not_true,
          Bool.false_eq_true, if_false]
        simp only [licensesLoop, hE, hstd, if_true]
        exact ih _ _ _
      · simp only [List.filter_cons, hE, Option.isSome_none, Bool.false_or, hstd,
          Bool.not_false, if_true]
        simp only [licensesLoop, hE, hstd, Bool.false_eq_true, if_false]
        cases h.findLicense info with
        | error msg => rfl
        | ok path =>
          simp only []
          by_cases hpath : path = ""
          · simp only [hpath, ne_eq, not_true_eq_false, if_false]; exact ih _ _ _
          · simp only [hpath, ne_eq, not_false_eq_true, if_true]
            cases cacheLookup matched (filepathJoin [info.Root, "src", path]) with
            | some m => exact ih _ _ _
            | none =>
              simp only []
              cases h.readFile (filepathJoin [info.Root, "src", path]) with
              | error msg => rfl
              | ok data => exact ih _ _ _

/-- C2, amended: a package without a resolution error whose `ImportPath` is in
the standard set contributes nothing: the loop of `listTopLevelLicenses`
returns the same records, and makes the same calls, as on the list from which
these packages are removed. A package with a resolution error contributes the
record made of its `Name` and the error text, whatever its `ImportPath`: that
record is in every list the loop returns, and the list returned by a run is
made of the contributions of the packages in order, the one of a package
with an error being this record and the one of a standard package without
error being empty. -/
theorem std_package_without_error_contributes_nothing {τ : Type} (h : Helpers τ)
    (templates : τ) (stdSet : String → Bool) (infos : List PkgInfo)
    (matched : List (String × MatchResult)) (licenses : List License) (calls : List Call) :
    licensesLoop h templates stdSet infos matched licenses calls =
        licensesLoop h templates stdSet
          (infos.filter (fun info => info.Error.isSome || !stdSet info.ImportPath))
          matched licenses calls ∧
      (∀ res, (licensesLoop h templates stdSet infos matched licenses calls).1 = .ok res →
        ∀ info ∈ infos, ∀ e, info.Error = some e →
          (⟨info.Name, 0, "", "", e.Err, [], []⟩ : License) ∈ res) ∧
      (∀ res, (licensesLoop h templates stdSet infos [] [] []).1 = .ok res →
        res = infos.filterMap (recordOption h templates stdSet)) ∧
      (∀ (info : PkgInfo) (e : PkgError), info.Error = some e →
        recordOption h templates stdSet info = some ⟨info.Name, 0, "", "", e.Err, [], []⟩) ∧
      (∀ info : PkgInfo, info.Error = none → stdSet info.ImportPath = true →
        recordOption h templates stdSet info = none) := by
  refine ⟨licensesLoop_filter_std h templates stdSet infos matched licenses calls,
    fun res hres => (licensesLoop_ok_mem h templates stdSet infos matched licenses calls
      res hres).2, ?_, ?_, ?_⟩
  · intro res hres
    rw [licensesLoop_eq_uncached h templates stdSet infos [] [] []
      (cacheSound_empty h templates)] at hres
    have hall := uncachedLicenses_ok_all h templates stdSet infos [] res hres
    rw [uncachedLicenses_ok h templates stdSet infos [] hall] at hres
    simpa using hres.symm
  · intro info e hE
    simp only [recordOption, uncachedRecord, hE]
  · intro info hE hstd
    simp only [recordOption, uncachedRecord, hE, hstd, if_true]

/-- Two packages with a resolution error, one of them in the standard set:
both are reported, in the order of the list, and the standard package
without error between them is not. -/
theorem errored_packages_example :
    (licensesLoop sampleHelpers () (fun n => ["fmt", "os"].contains n)
        [brokenFmt, ⟨"os", "/goroot", "os", none⟩,
          ⟨"", "", "lib/gone", some ⟨"cannot find package"⟩⟩] [] [] []).1
      = .ok [⟨"fmt", 0, "", "", "build constraints exclude all Go files", [], []⟩,
          ⟨"", 0, "", "", "cannot find package", [], []⟩] := by
  decide


end Licenses
